import Mathlib

/-!
# dumdumd: counters and connection lifecycle

A shallow embedding of `src/dumdumd.c`: the statistics counters, the timer
callback `stats_cb`, the libev callbacks `_ev_accept_cb`, `_ev_recv_cb`,
`_ev_shutdown_cb` and the libuv callbacks `_uv_on_connect_cb`,
`_uv_tcp_recv_cb`, `_uv_udp_recv_cb`, `_uv_close_cb`.

The process state is passed explicitly (`World`): the global `_stats`, the set
of started libev watchers, the libuv handles that are reading or closing, and
the log of the system and library calls made so far.  What the kernel and the
libraries answer (results of `accept`, `recv`, `fcntl`, `calloc`, the libuv
status codes) is an input of each callback.  `size_t` is 64 bits wide, so a
counter update is taken modulo `2 ^ 64`.
-/

namespace Dumdumd

/-! ## Constants -/

/-- The number of values of a `size_t` (LP64). -/
def SIZE_MOD : Nat := 2 ^ 64

/-- Size of `recvbuf`: `char recvbuf[4*1024*1024]`. -/
def sizeof_recvbuf : Nat := 4 * 1024 * 1024

/-- Linux value of `EAGAIN`. -/
def EAGAIN : Int := 11

/-- Linux value of `EWOULDBLOCK` (the same number as `EAGAIN`). -/
def EWOULDBLOCK : Int := 11

/-- Value of `SHUT_WR`: stop sending only. -/
def SHUT_WR : Nat := 1

/-- Value of `SHUT_RDWR`: stop both receiving and sending. -/
def SHUT_RDWR : Nat := 2

/-- Value of `UV_EOF`, the `nread` libuv reports at end of stream. -/
def UV_EOF : Int := -4095

/-! ## Statistics -/

/-- The five counters of `struct stats`. -/
structure stats where
  accept : Nat
  accdrop : Nat
  conns : Nat
  bytes : Nat
  pkts : Nat
deriving DecidableEq, Repr

/-- The initial value `STATS_INIT = { 0, 0, 0, 0, 0 }`. -/
def STATS_INIT : stats := ⟨0, 0, 0, 0, 0⟩

/-- The global `_stats0`, never written. -/
def _stats0 : stats := STATS_INIT

/-! ## Calls and process state -/

/-- The libev callbacks a watcher can be initialised with. -/
inductive Callback where
  | ev_accept_cb
  | ev_recv_cb
  | ev_shutdown_cb
deriving DecidableEq, Repr

/-- The calls the callbacks make, as recorded in the log. A libev watcher is
named by the descriptor stored in its `data`, a libuv handle by a number. -/
inductive Op where
  | printf (s : stats)
  | accept (fd : Int)
  | recv (fd : Int)
  | fcntl (fd : Int)
  | shutdown (fd : Int) (how : Nat)
  | close (fd : Int)
  | free (fd : Int)
  | ev_io_stop (fd : Int)
  | ev_io_start (fd : Int) (cb : Callback)
  | uv_tcp_init (h : Nat)
  | uv_accept (h : Nat)
  | uv_read_start (h : Nat)
  | uv_read_stop (h : Nat)
  | uv_udp_recv_stop (h : Nat)
  | uv_close (h : Nat)
  | uv_free (h : Nat)
deriving DecidableEq, Repr

/-- The state of the process as far as the callbacks touch it. -/
structure World where
  _stats : stats
  watchers : List (Int × Callback)
  uv_reading : List Nat
  uv_closing : List Nat
  log : List Op
deriving DecidableEq, Repr

/-- State at start-up: counters zero, nothing registered, nothing called. -/
def World.start : World := ⟨STATS_INIT, [], [], [], []⟩

/-- Record a call in the log. -/
def World.op (w : World) (o : Op) : World := { w with log := w.log ++ [o] }

/-- The statement `_stats.accept++`. -/
def World.inc_accept (w : World) : World :=
  { w with _stats := { w._stats with accept := (w._stats.accept + 1) % SIZE_MOD } }

/-- The statement `_stats.accdrop++`. -/
def World.inc_accdrop (w : World) : World :=
  { w with _stats := { w._stats with accdrop := (w._stats.accdrop + 1) % SIZE_MOD } }

/-- The statement `_stats.conns++`. -/
def World.inc_conns (w : World) : World :=
  { w with _stats := { w._stats with conns := (w._stats.conns + 1) % SIZE_MOD } }

/-- The statement `_stats.pkts++`. -/
def World.inc_pkts (w : World) : World :=
  { w with _stats := { w._stats with pkts := (w._stats.pkts + 1) % SIZE_MOD } }

/-- The statement `_stats.bytes += n` for a signed `n` converted to `size_t`. -/
def World.add_bytes (w : World) (n : Int) : World :=
  { w with _stats := { w._stats with bytes := (w._stats.bytes + (n % (SIZE_MOD : Int)).toNat) % SIZE_MOD } }

/-- The call `ev_io_stop(loop, w)` for the watcher of `fd`. -/
def World.ev_io_stop (w : World) (fd : Int) : World :=
  { w with watchers := w.watchers.filter (fun p => p.1 ≠ fd), log := w.log ++ [Op.ev_io_stop fd] }

/-- The calls `ev_io_init(w, cb, fd, EV_READ); ev_io_start(loop, w)`. -/
def World.ev_io_start (w : World) (fd : Int) (cb : Callback) : World :=
  { w with watchers := w.watchers ++ [(fd, cb)], log := w.log ++ [Op.ev_io_start fd cb] }

/-- Value of `SOCK_STREAM`. -/
def SOCK_STREAM : Int := 1

/-- Value of `SOCK_DGRAM`. -/
def SOCK_DGRAM : Int := 2

/-- The registration of a bound socket in `main` under libev:
`ev_io_init(io, ai_socktype == SOCK_STREAM ? _ev_accept_cb : _ev_recv_cb, fd, EV_READ)`
and `ev_io_start`. -/
def ev_listen (fd : Int) (ai_socktype : Int) (w : World) : World :=
  w.ev_io_start fd (if ai_socktype = SOCK_STREAM then Callback.ev_accept_cb else Callback.ev_recv_cb)

/-! ## The timer callback -/

/-- The function `stats_cb`: print the five counters, then `_stats = _stats0`. -/
def stats_cb (w : World) : World :=
  { (w.op (Op.printf w._stats)) with _stats := _stats0 }

/-! ## libev callbacks -/

/-- The function `_ev_shutdown_cb`; `r` is what `recv` returns. -/
def _ev_shutdown_cb (fd : Int) (r : Int) (w : World) : World :=
  let w := w.op (Op.recv fd)
  if r > 0 then w
  else ((w.ev_io_stop fd).op (Op.close fd)).op (Op.free fd)

/-- The lines of `_ev_recv_cb` after the loop. -/
def _ev_recv_cb_tail (fd : Int) (w : World) : World :=
  ((w.ev_io_stop fd).op (Op.shutdown fd SHUT_RDWR)).ev_io_start fd Callback.ev_shutdown_cb

/-- The function `_ev_recv_cb`. The list holds what the successive `recv`
calls return; the result is the new state and the answers not consumed, or
`none` when the list ends while the loop still runs. -/
def _ev_recv_cb (fd : Int) : List Int → World → Option (World × List Int)
  | [], _ => none
  | bytes :: rest, w =>
    let w := w.op (Op.recv fd)
    if bytes < 1 then some (_ev_recv_cb_tail fd w, rest)
    else
      let w := (w.inc_pkts).add_bytes bytes
      if bytes < (sizeof_recvbuf : Int) then some (w, rest)
      else _ev_recv_cb fd rest w

/-- What one iteration of the loop of `_ev_accept_cb` is answered: the result
of `accept` and `errno`, of the two `fcntl` calls, and whether `calloc`
returned memory. -/
structure AcceptAnswer where
  newfd : Int
  errno : Int
  getfl : Int
  setfl : Int
  calloc_ok : Bool
deriving DecidableEq, Repr

/-- The two `fcntl` calls of `_ev_accept_cb`; the second is made only when the
first did not return `-1`. -/
def fcntl_ops (w : World) (a : AcceptAnswer) : World :=
  if a.getfl = -1 then w.op (Op.fcntl a.newfd)
  else (w.op (Op.fcntl a.newfd)).op (Op.fcntl a.newfd)

/-- The function `_ev_accept_cb`. The list holds the answers for the
successive iterations; `none` when it ends while the loop still runs. -/
def _ev_accept_cb (fd : Int) : List AcceptAnswer → World → Option (World × List AcceptAnswer)
  | [], _ => none
  | a :: rest, w =>
    let w := (w.op (Op.accept fd)).inc_accept
    if a.newfd < 0 then
      if a.errno = EAGAIN ∨ a.errno = EWOULDBLOCK then some (w, rest)
      else
        some (((((w.ev_io_stop fd).op (Op.shutdown fd SHUT_RDWR)).op (Op.close fd)).op
          (Op.free fd)).inc_accdrop, rest)
    else
      let w := fcntl_ops w a
      if a.getfl = -1 ∨ a.setfl ≠ 0 then
        some ((((w.op (Op.shutdown a.newfd SHUT_RDWR)).op (Op.close a.newfd))).inc_accdrop, rest)
      else if a.calloc_ok = false then
        some ((((w.op (Op.shutdown a.newfd SHUT_RDWR)).op (Op.close a.newfd))).inc_accdrop, rest)
      else
        _ev_accept_cb fd rest ((w.ev_io_start a.newfd Callback.ev_recv_cb).inc_conns)

/-! ## libuv callbacks -/

/-- The call `uv_read_stop(handle)`. -/
def World.uv_read_stop (w : World) (h : Nat) : World :=
  { w with uv_reading := w.uv_reading.filter (fun x => x ≠ h), log := w.log ++ [Op.uv_read_stop h] }

/-- The call `uv_udp_recv_stop(handle)`. -/
def World.uv_udp_recv_stop (w : World) (h : Nat) : World :=
  { w with uv_reading := w.uv_reading.filter (fun x => x ≠ h), log := w.log ++ [Op.uv_udp_recv_stop h] }

/-- The call `uv_close(handle, _uv_close_cb)`: the handle is closing until the
loop runs its close callback. -/
def World.uv_close (w : World) (h : Nat) : World :=
  { w with uv_closing := w.uv_closing ++ [h], log := w.log ++ [Op.uv_close h] }

/-- A successful `uv_read_start(tcp, _uv_alloc_cb, _uv_tcp_recv_cb)`. -/
def World.uv_read_start (w : World) (h : Nat) : World :=
  { w with uv_reading := w.uv_reading ++ [h], log := w.log ++ [Op.uv_read_start h] }

/-- The function `_uv_close_cb`: `free(handle)`. -/
def _uv_close_cb (h : Nat) (w : World) : World :=
  { w with uv_closing := w.uv_closing.filter (fun x => x ≠ h), log := w.log ++ [Op.uv_free h] }

/-- The function `_uv_udp_recv_cb`. -/
def _uv_udp_recv_cb (h : Nat) (nread : Int) (w : World) : World :=
  if nread < 0 then (w.uv_udp_recv_stop h).uv_close h
  else (w.inc_pkts).add_bytes nread

/-- The function `_uv_tcp_recv_cb`. -/
def _uv_tcp_recv_cb (h : Nat) (nread : Int) (w : World) : World :=
  if nread < 0 then (w.uv_read_stop h).uv_close h
  else (w.inc_pkts).add_bytes nread

/-- What one call of `_uv_on_connect_cb` is answered: its `status` argument,
the handle `calloc` returns, and the results of `uv_tcp_init`, `uv_accept` and
`uv_read_start`. -/
structure ConnectAnswer where
  status : Int
  tcp : Nat
  tcp_init : Int
  accept : Int
  read_start : Int
deriving DecidableEq, Repr

/-- The function `_uv_on_connect_cb`. -/
def _uv_on_connect_cb (a : ConnectAnswer) (w : World) : World :=
  if a.status ≠ 0 then w.inc_accdrop
  else
    let w := w.op (Op.uv_tcp_init a.tcp)
    if a.tcp_init ≠ 0 then (w.op (Op.uv_free a.tcp)).inc_accdrop
    else
      let w := w.op (Op.uv_accept a.tcp)
      if a.accept ≠ 0 then (w.uv_close a.tcp).inc_accdrop
      else
        let w := w.inc_accept
        if a.read_start ≠ 0 then (w.op (Op.uv_read_start a.tcp)).uv_close a.tcp
        else (w.uv_read_start a.tcp).inc_conns

/-! ## Callback invocations in sequence -/

/-- One callback invocation by the event loop, with the answers it is given. -/
inductive Event where
  | timer
  | ev_accept (fd : Int) (answers : List AcceptAnswer)
  | ev_recv (fd : Int) (answers : List Int)
  | ev_shutdown (fd : Int) (r : Int)
  | uv_connect (a : ConnectAnswer)
  | uv_tcp_recv (h : Nat) (nread : Int)
  | uv_udp_recv (h : Nat) (nread : Int)
  | uv_closed (h : Nat)
deriving DecidableEq, Repr

/-- Run the callback of one event; `none` when its answers run out while the
callback still loops. Answers a callback does not consume are dropped. -/
def dispatch (e : Event) (w : World) : Option World :=
  match e with
  | Event.timer => some (stats_cb w)
  | Event.ev_accept fd answers => (_ev_accept_cb fd answers w).map Prod.fst
  | Event.ev_recv fd answers => (_ev_recv_cb fd answers w).map Prod.fst
  | Event.ev_shutdown fd r => some (_ev_shutdown_cb fd r w)
  | Event.uv_connect a => some (_uv_on_connect_cb a w)
  | Event.uv_tcp_recv h nread => some (_uv_tcp_recv_cb h nread w)
  | Event.uv_udp_recv h nread => some (_uv_udp_recv_cb h nread w)
  | Event.uv_closed h => some (_uv_close_cb h w)

/-- Run a sequence of callback invocations, one after the other (the loop is
single threaded). -/
def run : List Event → World → Option World
  | [], w => some w
  | e :: es, w => (dispatch e w).bind (run es)

/-- The counter values printed so far, oldest first. -/
def reports : List Op → List stats
  | [] => []
  | Op.printf s :: l => s :: reports l
  | _ :: l => reports l


/-! ## Vocabulary of the properties -/

/-- The counters are `size_t` values. -/
def stats.ok (s : stats) : Prop :=
  s.accept < SIZE_MOD ∧ s.accdrop < SIZE_MOD ∧ s.conns < SIZE_MOD ∧ s.bytes < SIZE_MOD ∧
    s.pkts < SIZE_MOD

/-- Add to each counter in `size_t` arithmetic. -/
def stats.bump (s : stats) (a d c b p : Nat) : stats :=
  ⟨(s.accept + a) % SIZE_MOD, (s.accdrop + d) % SIZE_MOD, (s.conns + c) % SIZE_MOD,
    (s.bytes + b) % SIZE_MOD, (s.pkts + p) % SIZE_MOD⟩

/-- The byte counts above zero among the answers of `recv`. -/
def positives (xs : List Int) : List Int := xs.filter (fun x => 0 < x)

/-- The sum of the byte counts above zero. -/
def byte_total (xs : List Int) : Nat := ((positives xs).map Int.toNat).sum

/-- The `accept` call returned a descriptor. -/
def AcceptAnswer.accepted (a : AcceptAnswer) : Bool := decide (0 ≤ a.newfd)

/-- The `accept` call failed with `EAGAIN` or `EWOULDBLOCK`. -/
def AcceptAnswer.would_block (a : AcceptAnswer) : Bool :=
  decide (a.newfd < 0) && (decide (a.errno = EAGAIN) || decide (a.errno = EWOULDBLOCK))

/-- The `accept` call returned a descriptor, both `fcntl` calls and `calloc`
succeeded. -/
def AcceptAnswer.set_up (a : AcceptAnswer) : Bool :=
  decide (0 ≤ a.newfd) && decide (a.getfl ≠ -1) && decide (a.setfl = 0) && a.calloc_ok

/-- The attempt failed: `accept` failed otherwise than by would-block, or the
new descriptor could not be set up. -/
def AcceptAnswer.failed (a : AcceptAnswer) : Bool := !a.would_block && !a.set_up

/-- Add the counters of `d` to those of `s` in `size_t` arithmetic. -/
def stats.bumpBy (s d : stats) : stats := s.bump d.accept d.accdrop d.conns d.bytes d.pkts

/-- Add two records of counters field by field, without bound. -/
def stats.plus (s t : stats) : stats :=
  ⟨s.accept + t.accept, s.accdrop + t.accdrop, s.conns + t.conns, s.bytes + t.bytes,
    s.pkts + t.pkts⟩

/-- The field by field sum of a list of records, without bound. -/
def stats.total : List stats → stats
  | [] => STATS_INIT
  | s :: l => s.plus (stats.total l)

/-- Each counter of `s` is congruent to that of `t` modulo `2 ^ 64`. -/
def stats.modEq (s t : stats) : Prop :=
  s.accept % SIZE_MOD = t.accept % SIZE_MOD ∧ s.accdrop % SIZE_MOD = t.accdrop % SIZE_MOD ∧
    s.conns % SIZE_MOD = t.conns % SIZE_MOD ∧ s.bytes % SIZE_MOD = t.bytes % SIZE_MOD ∧
    s.pkts % SIZE_MOD = t.pkts % SIZE_MOD

/-- Each counter of `s` is at most that of `t`. -/
def stats.le (s t : stats) : Prop :=
  s.accept ≤ t.accept ∧ s.accdrop ≤ t.accdrop ∧ s.conns ≤ t.conns ∧ s.bytes ≤ t.bytes ∧
    s.pkts ≤ t.pkts

/-- The increments one callback invocation applies to the counters: the
counters it leaves when it starts from zero (nothing for an invocation that
does not return). -/
def increments (e : Event) : stats :=
  match e with
  | Event.timer => STATS_INIT
  | e => match dispatch e World.start with
    | some w => w._stats
    | none => STATS_INIT

instance (s : stats) : Decidable s.ok := by unfold stats.ok; infer_instance

/-- A run of the libev backend: a connection is accepted on listener 3 as
descriptor 7 and sends 10 bytes, a tick, 50 more bytes and end of stream, a
tick, and the drain. -/
def sample_run : List Event :=
  [Event.ev_accept 3 [⟨7, 0, 2, 0, true⟩, ⟨-1, 11, 0, 0, true⟩],
    Event.ev_recv 7 [10], Event.timer, Event.ev_recv 7 [50], Event.ev_recv 7 [0],
    Event.timer, Event.ev_shutdown 7 0]

/-- The connection callback was entered with status zero, and both
`uv_tcp_init` and `uv_accept` succeeded: a new connection was obtained. -/
def ConnectAnswer.accepted (a : ConnectAnswer) : Bool :=
  decide (a.status = 0) && decide (a.tcp_init = 0) && decide (a.accept = 0)

/-- A new connection was obtained and `uv_read_start` succeeded on it. -/
def ConnectAnswer.set_up (a : ConnectAnswer) : Bool :=
  a.accepted && decide (a.read_start = 0)

/-- Successive invocations of `_ev_accept_cb` on one listener by the event
loop, `n` of them, consuming the answers of the kernel in order. -/
def ev_accept_calls (fd : Int) : Nat → List AcceptAnswer → World → Option (World × List AcceptAnswer)
  | 0, xs, w => some (w, xs)
  | n + 1, xs, w =>
    match _ev_accept_cb fd xs w with
    | none => none
    | some r => ev_accept_calls fd n r.2 r.1

/-- Successive invocations of `_uv_on_connect_cb`, one for each answer. -/
def uv_connect_calls : List ConnectAnswer → World → World
  | [], w => w
  | a :: as, w => uv_connect_calls as (_uv_on_connect_cb a w)

/-- Answers to two invocations of `_ev_accept_cb`: a connection set up as
descriptor 7, then descriptor 8 whose `fcntl(F_GETFL)` fails; then descriptor
8 set up and a would-block. -/
def accept_sample : List AcceptAnswer :=
  [⟨7, 0, 2, 0, true⟩, ⟨8, 0, -1, 0, true⟩, ⟨8, 0, 2, 0, true⟩, ⟨-1, 11, 0, 0, true⟩]

/-- The callback the started watcher of `fd` was initialised with, if there
is one. -/
def registered (w : World) (fd : Int) : Option Callback :=
  (w.watchers.find? (fun p => p.1 = fd)).map Prod.snd

/-- The state after the loop of `_ev_recv_cb` has counted the reads `pre`. -/
def count_reads (fd : Int) : List Int → World → World
  | [], w => w
  | x :: xs, w => count_reads fd xs (((w.op (Op.recv fd)).inc_pkts).add_bytes x)

/-- A connection accepted as descriptor 7 by the libev backend, in the ACTIVE
state: its watcher is started with `_ev_recv_cb`. -/
def active_conn : World := ⟨STATS_INIT, [(7, Callback.ev_recv_cb)], [], [], []⟩

/-- The lifecycle states of a connection. -/
inductive ConnState where
  | ACTIVE
  | DRAINING
  | CLOSED
deriving DecidableEq, Repr

/-- The state of the descriptor `fd` under libev, read off its watcher:
started with `_ev_recv_cb` it is active, started with `_ev_shutdown_cb` it is
draining, and it is closed once the watcher is stopped for good. -/
def conn_state (w : World) (fd : Int) : ConnState :=
  match registered w fd with
  | some Callback.ev_recv_cb => ConnState.ACTIVE
  | some Callback.ev_shutdown_cb => ConnState.DRAINING
  | _ => ConnState.CLOSED

/-- The state of the handle `h` under libuv: active while it is reading,
closed after `uv_close`. -/
def uv_conn_state (w : World) (h : Nat) : ConnState :=
  if h ∈ w.uv_reading then ConnState.ACTIVE else ConnState.CLOSED

/-- The event loop finds `fd` readable: it calls the read callback its watcher
is started with, which consumes answers of `recv`. `none` when no read
callback is started for `fd` or the answers run out. -/
def ev_readable (fd : Int) (rs : List Int) (w : World) : Option (World × List Int) :=
  match registered w fd with
  | some Callback.ev_recv_cb => _ev_recv_cb fd rs w
  | some Callback.ev_shutdown_cb =>
    match rs with
    | [] => none
    | r :: rest => some (_ev_shutdown_cb fd r w, rest)
  | _ => none

/-- The states after each of up to `n` successive readiness events of `fd`. -/
def ev_conn_trace (fd : Int) : Nat → List Int → World → List World
  | 0, _, _ => []
  | n + 1, rs, w =>
    match ev_readable fd rs w with
    | none => []
    | some r => r.1 :: ev_conn_trace fd n r.2 r.1

/-- The call is a `recv`, `shutdown`, `close`, `fcntl` or watcher start on the
descriptor `fd`. -/
def Op.on_fd (fd : Int) : Op → Bool
  | Op.recv f => decide (f = fd)
  | Op.shutdown f _ => decide (f = fd)
  | Op.close f => decide (f = fd)
  | Op.fcntl f => decide (f = fd)
  | Op.ev_io_start f _ => decide (f = fd)
  | _ => false

/-- The calls logged after the first `close(fd)`. -/
def after_close (fd : Int) (log : List Op) : List Op :=
  (log.dropWhile (fun o => decide (o ≠ Op.close fd))).drop 1

/-- Scan the log with the number `n` of started watchers of `fd`: true when
that number never exceeds one. -/
def regs_ok (fd : Int) : List Op → Nat → Bool
  | [], n => decide (n ≤ 1)
  | Op.ev_io_start f _ :: l, n => decide (n ≤ 1) && regs_ok fd l (if f = fd then n + 1 else n)
  | Op.ev_io_stop f :: l, n => decide (n ≤ 1) && regs_ok fd l (if f = fd then n - 1 else n)
  | _ :: l, n => decide (n ≤ 1) && regs_ok fd l n

/-- The libev backend after `main` registered the stream listener `lfd` and
one invocation of `_ev_accept_cb` accepted `newfd` and then met would-block. -/
def ev_accepted (lfd newfd : Int) : Option World :=
  (_ev_accept_cb lfd [⟨newfd, 0, 0, 0, true⟩, ⟨-1, EAGAIN, 0, 0, true⟩]
    (ev_listen lfd SOCK_STREAM World.start)).map Prod.fst

/-- Successive invocations of `_uv_tcp_recv_cb` on one handle. -/
def uv_tcp_reads (h : Nat) : List Int → World → World
  | [], w => w
  | n :: ns, w => uv_tcp_reads h ns (_uv_tcp_recv_cb h n w)

/-- The libuv backend after one call of `_uv_on_connect_cb` in which
`uv_tcp_init`, `uv_accept` and `uv_read_start` all succeeded for handle `h`. -/
def uv_accepted (h : Nat) : World := _uv_on_connect_cb ⟨0, h, 0, 0, 0⟩ World.start

/-- The callbacks of the libev backend for one connection accepted on `lfd`
as `newfd` that delivers its bytes in the chunks `cs` and then closes: the
accept invocation (one connection, then would-block), one read invocation for
each chunk, the read that meets end of stream, and the draining read. -/
def ev_scenario (lfd newfd : Int) (cs : List Nat) : List Event :=
  [Event.ev_accept lfd [⟨newfd, 0, 0, 0, true⟩, ⟨-1, EAGAIN, 0, 0, true⟩]] ++
    cs.map (fun (c : Nat) => Event.ev_recv newfd [(c : Int)]) ++
    [Event.ev_recv newfd [0], Event.ev_shutdown newfd 0]

/-- The callbacks of the libuv backend for the same connection on handle `h`:
the connection callback, one read callback for each chunk, the end-of-stream
callback and the close callback. -/
def uv_scenario (h : Nat) (cs : List Nat) : List Event :=
  [Event.uv_connect ⟨0, h, 0, 0, 0⟩] ++ cs.map (fun (c : Nat) => Event.uv_tcp_recv h (c : Int)) ++
    [Event.uv_tcp_recv h UV_EOF, Event.uv_closed h]

/-- The libev scenario with reads of 10, 20 and 30 bytes and three ticks. -/
def scenario_run : List Event :=
  [Event.ev_accept 3 [⟨7, 0, 0, 0, true⟩, ⟨-1, EAGAIN, 0, 0, true⟩], Event.ev_recv 7 [10],
    Event.timer, Event.ev_recv 7 [20], Event.ev_recv 7 [30], Event.timer, Event.ev_recv 7 [0],
    Event.ev_shutdown 7 0, Event.timer]

/-! ## Basic facts -/

theorem SIZE_MOD_pos : 0 < SIZE_MOD := by decide

theorem bump_zero (s : stats) (h : s.ok) : s.bump 0 0 0 0 0 = s := by
  obtain ⟨h1, h2, h3, h4, h5⟩ := h
  cases s
  simp only [stats.bump, Nat.add_zero] at *
  simp [Nat.mod_eq_of_lt, *]

theorem bump_bump (s : stats) (a d c b p a' d' c' b' p' : Nat) :
    (s.bump a d c b p).bump a' d' c' b' p' = s.bump (a + a') (d + d') (c + c') (b + b') (p + p') := by
  simp only [stats.bump, stats.mk.injEq, Nat.mod_add_mod, Nat.add_assoc, and_self]

theorem bump_ok (s : stats) (a d c b p : Nat) : (s.bump a d c b p).ok := by
  have := SIZE_MOD_pos
  simp only [stats.bump, stats.ok]
  refine ⟨?_, ?_, ?_, ?_, ?_⟩ <;> exact Nat.mod_lt _ this

theorem toNat_emod_size (n : Int) (h : 0 ≤ n) :
    (n % (SIZE_MOD : Int)).toNat = n.toNat % SIZE_MOD := by
  obtain ⟨k, rfl⟩ := Int.eq_ofNat_of_zero_le h
  simp only [Int.toNat_ofNat]
  rw [← Int.ofNat_emod, Int.toNat_ofNat]

@[simp] theorem op_stats (w : World) (o : Op) : (w.op o)._stats = w._stats := rfl

@[simp] theorem ev_io_stop_stats (w : World) (fd : Int) : (w.ev_io_stop fd)._stats = w._stats := rfl

@[simp] theorem ev_io_start_stats (w : World) (fd : Int) (cb : Callback) :
    (w.ev_io_start fd cb)._stats = w._stats := rfl

@[simp] theorem uv_read_stop_stats (w : World) (h : Nat) : (w.uv_read_stop h)._stats = w._stats := rfl

@[simp] theorem uv_udp_recv_stop_stats (w : World) (h : Nat) :
    (w.uv_udp_recv_stop h)._stats = w._stats := rfl

@[simp] theorem uv_close_stats (w : World) (h : Nat) : (w.uv_close h)._stats = w._stats := rfl

@[simp] theorem uv_read_start_stats (w : World) (h : Nat) :
    (w.uv_read_start h)._stats = w._stats := rfl

@[simp] theorem uv_close_cb_stats (w : World) (h : Nat) : (_uv_close_cb h w)._stats = w._stats := rfl

theorem bump_one_field (s : stats) (h : s.ok) :
    s.bump 1 0 0 0 0 = { s with accept := (s.accept + 1) % SIZE_MOD } ∧
    s.bump 0 1 0 0 0 = { s with accdrop := (s.accdrop + 1) % SIZE_MOD } ∧
    s.bump 0 0 1 0 0 = { s with conns := (s.conns + 1) % SIZE_MOD } ∧
    s.bump 0 0 0 0 1 = { s with pkts := (s.pkts + 1) % SIZE_MOD } ∧
    ∀ b, s.bump 0 0 0 b 0 = { s with bytes := (s.bytes + b) % SIZE_MOD } := by
  obtain ⟨h1, h2, h3, h4, h5⟩ := h
  cases s
  simp only [stats.bump, Nat.add_zero] at *
  simp [Nat.mod_eq_of_lt, *]

theorem inc_accept_stats (w : World) (h : w._stats.ok) :
    (w.inc_accept)._stats = w._stats.bump 1 0 0 0 0 := by
  rw [(bump_one_field _ h).1]; rfl

theorem inc_accdrop_stats (w : World) (h : w._stats.ok) :
    (w.inc_accdrop)._stats = w._stats.bump 0 1 0 0 0 := by
  rw [(bump_one_field _ h).2.1]; rfl

theorem inc_conns_stats (w : World) (h : w._stats.ok) :
    (w.inc_conns)._stats = w._stats.bump 0 0 1 0 0 := by
  rw [(bump_one_field _ h).2.2.1]; rfl

theorem inc_pkts_stats (w : World) (h : w._stats.ok) :
    (w.inc_pkts)._stats = w._stats.bump 0 0 0 0 1 := by
  rw [(bump_one_field _ h).2.2.2.1]; rfl

theorem add_bytes_stats (w : World) (n : Int) (hn : 0 ≤ n) (h : w._stats.ok) :
    (w.add_bytes n)._stats = w._stats.bump 0 0 0 n.toNat 0 := by
  rw [(bump_one_field _ h).2.2.2.2]
  simp only [World.add_bytes, toNat_emod_size n hn, Nat.add_mod_mod]

/-- One counted read: `_stats.pkts++; _stats.bytes += n`. -/
theorem count_read_stats (w : World) (n : Int) (hn : 0 ≤ n) (h : w._stats.ok) :
    ((w.inc_pkts).add_bytes n)._stats = w._stats.bump 0 0 0 n.toNat 1 := by
  have h1 := inc_pkts_stats w h
  rw [add_bytes_stats _ n hn (by rw [h1]; exact bump_ok _ _ _ _ _ _), h1, bump_bump]
  simp

theorem ev_recv_cb_effect (fd : Int) : ∀ (xs : List Int) (w w' : World) (rest : List Int),
    w._stats.ok → _ev_recv_cb fd xs w = some (w', rest) →
    ∃ used, xs = used ++ rest ∧
      w'._stats = w._stats.bump 0 0 0 (byte_total used) (positives used).length := by
  intro xs
  induction xs with
  | nil => intro w w' rest _ h; simp [_ev_recv_cb] at h
  | cons x xs ih =>
    intro w w' rest hok h
    simp only [_ev_recv_cb] at h
    by_cases hx : x < 1
    · simp only [hx, if_true, Option.some.injEq, Prod.mk.injEq] at h
      obtain ⟨rfl, rfl⟩ := h
      refine ⟨[x], rfl, ?_⟩
      have hp : positives [x] = [] := by
        simp only [positives, List.filter_cons, List.filter_nil]
        rw [if_neg]; simp; omega
      simp [byte_total, hp, _ev_recv_cb_tail, bump_zero _ hok]
    · have hx0 : 0 ≤ x := by omega
      have hp : ∀ l, positives (x :: l) = x :: positives l := by
        intro l
        simp only [positives, List.filter_cons]
        rw [if_pos]; simp; omega
      have hc := count_read_stats (w.op (Op.recv fd)) x hx0 hok
      simp only [hx, if_false] at h
      by_cases hb : x < (sizeof_recvbuf : Int)
      · simp only [hb, if_true, Option.some.injEq, Prod.mk.injEq] at h
        obtain ⟨rfl, rfl⟩ := h
        refine ⟨[x], rfl, ?_⟩
        have hn : positives ([] : List Int) = [] := rfl
        rw [hc]
        simp [byte_total, hp, hn]
      · simp only [hb, if_false] at h
        obtain ⟨used, hu, hs⟩ := ih _ _ _ (by rw [hc]; exact bump_ok _ _ _ _ _ _) h
        refine ⟨x :: used, by rw [hu]; rfl, ?_⟩
        rw [hs, hc, bump_bump]
        simp [byte_total, hp, Nat.add_comm]


theorem ev_accept_cb_effect (fd : Int) :
    ∀ (xs : List AcceptAnswer) (w w' : World) (rest : List AcceptAnswer),
    w._stats.ok → _ev_accept_cb fd xs w = some (w', rest) →
    ∃ used, xs = used ++ rest ∧
      w'._stats = w._stats.bump used.length (used.filter AcceptAnswer.failed).length
        (used.filter AcceptAnswer.set_up).length 0 0 := by
  intro xs
  induction xs with
  | nil => intro w w' rest _ h; simp [_ev_accept_cb] at h
  | cons a xs ih =>
    intro w w' rest hok h
    simp only [_ev_accept_cb] at h
    have ha := inc_accept_stats (w.op (Op.accept fd)) hok
    have hok1 : ((w.op (Op.accept fd)).inc_accept)._stats.ok := by
      rw [ha]; exact bump_ok _ _ _ _ _ _
    by_cases h1 : a.newfd < 0
    · simp only [h1, if_true] at h
      have hs : a.set_up = false := by
        simp [AcceptAnswer.set_up]; intro h'; omega
      by_cases h2 : a.errno = EAGAIN ∨ a.errno = EWOULDBLOCK
      · simp only [h2, if_true, Option.some.injEq, Prod.mk.injEq] at h
        obtain ⟨rfl, rfl⟩ := h
        have hf : a.failed = false := by
          have : a.would_block = true := by
            simp only [AcceptAnswer.would_block, Bool.and_eq_true, Bool.or_eq_true,
              decide_eq_true_eq]
            exact ⟨h1, h2⟩
          simp [AcceptAnswer.failed, this]
        refine ⟨[a], rfl, ?_⟩
        rw [ha]
        simp [hf, hs]
      · simp only [h2, if_false, Option.some.injEq, Prod.mk.injEq] at h
        obtain ⟨rfl, rfl⟩ := h
        have hf : a.failed = true := by
          have : a.would_block = false := by
            simp only [AcceptAnswer.would_block, Bool.and_eq_false_iff, Bool.or_eq_false_iff,
              decide_eq_false_iff_not]
            right
            exact ⟨fun h => h2 (Or.inl h), fun h => h2 (Or.inr h)⟩
          simp [AcceptAnswer.failed, this, hs]
        refine ⟨[a], rfl, ?_⟩
        rw [inc_accdrop_stats _ (by simpa using hok1)]
        simp only [op_stats, ev_io_stop_stats]
        rw [ha, bump_bump]
        simp [hf, hs]
    · simp only [h1, if_false] at h
      have hwb : a.would_block = false := by
        simp [AcceptAnswer.would_block]; intro h'; omega
      have hfs : (fcntl_ops ((w.op (Op.accept fd)).inc_accept) a)._stats
          = ((w.op (Op.accept fd)).inc_accept)._stats := by
        unfold fcntl_ops; split <;> rfl
      by_cases h2 : a.getfl = -1 ∨ a.setfl ≠ 0
      · simp only [h2, if_true, Option.some.injEq, Prod.mk.injEq] at h
        obtain ⟨rfl, rfl⟩ := h
        have hs : a.set_up = false := by
          simp only [AcceptAnswer.set_up, Bool.and_eq_false_iff, decide_eq_false_iff_not]
          rcases h2 with h2 | h2
          · left; left; right; simp [h2]
          · left; right; exact h2
        refine ⟨[a], rfl, ?_⟩
        rw [inc_accdrop_stats _ (by simpa [hfs] using hok1)]
        simp only [op_stats, hfs]
        rw [ha, bump_bump]
        simp [AcceptAnswer.failed, hwb, hs]
      · simp only [h2, if_false] at h
        by_cases h3 : a.calloc_ok = false
        · simp only [h3, if_true, Option.some.injEq, Prod.mk.injEq] at h
          obtain ⟨rfl, rfl⟩ := h
          have hs : a.set_up = false := by
            simp [AcceptAnswer.set_up, h3]
          refine ⟨[a], rfl, ?_⟩
          rw [inc_accdrop_stats _ (by simpa [hfs] using hok1)]
          simp only [op_stats, hfs]
          rw [ha, bump_bump]
          simp [AcceptAnswer.failed, hwb, hs]
        · simp only [h3, if_false] at h
          have hs : a.set_up = true := by
            simp only [not_or, not_not] at h2
            simp only [AcceptAnswer.set_up, Bool.and_eq_true, decide_eq_true_eq]
            exact ⟨⟨⟨by omega, h2.1⟩, h2.2⟩, by simpa using h3⟩
          have hc := inc_conns_stats
            ((fcntl_ops ((w.op (Op.accept fd)).inc_accept) a).ev_io_start a.newfd Callback.ev_recv_cb)
            (by simpa [hfs] using hok1)
          obtain ⟨used, hu, hst⟩ := ih _ _ _ (by rw [hc]; exact bump_ok _ _ _ _ _ _) h
          refine ⟨a :: used, by rw [hu]; rfl, ?_⟩
          rw [hst, hc]
          simp only [ev_io_start_stats, hfs]
          rw [ha, bump_bump, bump_bump]
          simp [AcceptAnswer.failed, hwb, hs, Nat.add_comm]

theorem ev_recv_cb_rest (fd : Int) : ∀ (xs : List Int) (w v : World),
    (_ev_recv_cb fd xs w).map Prod.snd = (_ev_recv_cb fd xs v).map Prod.snd := by
  intro xs
  induction xs with
  | nil => intro w v; rfl
  | cons x xs ih =>
    intro w v
    simp only [_ev_recv_cb]
    split_ifs
    · rfl
    · rfl
    · exact ih _ _

theorem ev_accept_cb_rest (fd : Int) : ∀ (xs : List AcceptAnswer) (w v : World),
    (_ev_accept_cb fd xs w).map Prod.snd = (_ev_accept_cb fd xs v).map Prod.snd := by
  intro xs
  induction xs with
  | nil => intro w v; rfl
  | cons x xs ih =>
    intro w v
    simp only [_ev_accept_cb]
    split_ifs
    · rfl
    · rfl
    · rfl
    · rfl
    · exact ih _ _

theorem uv_on_connect_cb_effect (a : ConnectAnswer) (w : World) (hok : w._stats.ok) :
    (_uv_on_connect_cb a w)._stats =
      w._stats.bump (if a.status = 0 ∧ a.tcp_init = 0 ∧ a.accept = 0 then 1 else 0)
        (if a.status = 0 ∧ a.tcp_init = 0 ∧ a.accept = 0 then 0 else 1)
        (if a.status = 0 ∧ a.tcp_init = 0 ∧ a.accept = 0 ∧ a.read_start = 0 then 1 else 0) 0 0 := by
  unfold _uv_on_connect_cb
  by_cases h1 : a.status = 0
  · by_cases h2 : a.tcp_init = 0
    · by_cases h3 : a.accept = 0
      · have ha := inc_accept_stats ((w.op (Op.uv_tcp_init a.tcp)).op (Op.uv_accept a.tcp)) hok
        by_cases h4 : a.read_start = 0
        · simp only [h1, h2, h3, h4, ne_eq, not_true_eq_false, if_false, and_self, if_true]
          rw [inc_conns_stats _ (by
            simp only [uv_read_start_stats]; rw [ha]; exact bump_ok _ _ _ _ _ _)]
          simp only [uv_read_start_stats]
          rw [ha, bump_bump]; rfl
        · simp only [h1, h2, h3, h4, ne_eq, not_true_eq_false, if_false, and_self, if_true,
            not_false_eq_true, and_false, uv_close_stats, op_stats]
          rw [ha]; rfl
      · simp only [h1, h2, h3, ne_eq, not_true_eq_false, if_false, not_false_eq_true, if_true,
          and_false, true_and, false_and]
        exact inc_accdrop_stats _ hok
    · simp only [h1, h2, ne_eq, not_true_eq_false, if_false, not_false_eq_true, if_true,
        and_false, true_and, false_and]
      exact inc_accdrop_stats _ hok
  · simp only [h1, ne_eq, not_false_eq_true, if_true, false_and, if_false]
    rw [inc_accdrop_stats _ hok]

theorem start_ok : World.start._stats.ok := by
  simp [World.start, STATS_INIT, stats.ok, SIZE_MOD]

theorem dispatch_uniform (e : Event) (he : e ≠ Event.timer) (w w' : World)
    (hok : w._stats.ok) (h : dispatch e w = some w') :
    ∃ a d c b p, w'._stats = w._stats.bump a d c b p ∧
      ∀ v : World, v._stats.ok → ∃ v', dispatch e v = some v' ∧
        v'._stats = v._stats.bump a d c b p := by
  cases e with
  | timer => exact absurd rfl he
  | ev_accept fd xs =>
    have h0 : ∃ rest, _ev_accept_cb fd xs w = some (w', rest) := by
      cases hq : _ev_accept_cb fd xs w with
      | none => simp [dispatch, hq] at h
      | some q =>
        simp only [dispatch, hq, Option.map_some', Option.some.injEq] at h
        exact ⟨q.2, by rw [← h]⟩
    obtain ⟨rest, h⟩ := h0
    obtain ⟨used, hu, hs⟩ := ev_accept_cb_effect fd xs w w' rest hok h
    refine ⟨_, _, _, _, _, hs, ?_⟩
    intro v hv
    have hr := ev_accept_cb_rest fd xs v w
    rw [h] at hr
    cases hc : _ev_accept_cb fd xs v with
    | none => rw [hc] at hr; simp at hr
    | some q =>
      obtain ⟨v', rest'⟩ := q
      rw [hc] at hr
      simp only [Option.map_some', Option.some.injEq] at hr
      subst hr
      obtain ⟨used', hu', hs'⟩ := ev_accept_cb_effect fd xs v v' _ hv hc
      have : used' = used := List.append_cancel_right (hu'.symm.trans hu)
      subst this
      exact ⟨v', by simp [dispatch, hc], hs'⟩
  | ev_recv fd xs =>
    have h0 : ∃ rest, _ev_recv_cb fd xs w = some (w', rest) := by
      cases hq : _ev_recv_cb fd xs w with
      | none => simp [dispatch, hq] at h
      | some q =>
        simp only [dispatch, hq, Option.map_some', Option.some.injEq] at h
        exact ⟨q.2, by rw [← h]⟩
    obtain ⟨rest, h⟩ := h0
    obtain ⟨used, hu, hs⟩ := ev_recv_cb_effect fd xs w w' rest hok h
    refine ⟨_, _, _, _, _, hs, ?_⟩
    intro v hv
    have hr := ev_recv_cb_rest fd xs v w
    rw [h] at hr
    cases hc : _ev_recv_cb fd xs v with
    | none => rw [hc] at hr; simp at hr
    | some q =>
      obtain ⟨v', rest'⟩ := q
      rw [hc] at hr
      simp only [Option.map_some', Option.some.injEq] at hr
      subst hr
      obtain ⟨used', hu', hs'⟩ := ev_recv_cb_effect fd xs v v' _ hv hc
      have : used' = used := List.append_cancel_right (hu'.symm.trans hu)
      subst this
      exact ⟨v', by simp [dispatch, hc], hs'⟩
  | ev_shutdown fd r =>
    simp only [dispatch, Option.some.injEq] at h
    subst h
    have key : ∀ v : World, (_ev_shutdown_cb fd r v)._stats = v._stats := by
      intro v; unfold _ev_shutdown_cb; split <;> rfl
    refine ⟨0, 0, 0, 0, 0, by rw [key, bump_zero _ hok], ?_⟩
    intro v hv
    exact ⟨_, rfl, by rw [key, bump_zero _ hv]⟩
  | uv_connect a =>
    simp only [dispatch, Option.some.injEq] at h
    subst h
    exact ⟨_, _, _, _, _, uv_on_connect_cb_effect a w hok,
      fun v hv => ⟨_, rfl, uv_on_connect_cb_effect a v hv⟩⟩
  | uv_tcp_recv hd nread =>
    simp only [dispatch, Option.some.injEq] at h
    subst h
    by_cases hn : nread < 0
    · have key : ∀ v : World, (_uv_tcp_recv_cb hd nread v)._stats = v._stats := by
        intro v; simp [_uv_tcp_recv_cb, hn]
      refine ⟨0, 0, 0, 0, 0, by rw [key, bump_zero _ hok], ?_⟩
      intro v hv
      exact ⟨_, rfl, by rw [key, bump_zero _ hv]⟩
    · have key : ∀ v : World, v._stats.ok →
          (_uv_tcp_recv_cb hd nread v)._stats = v._stats.bump 0 0 0 nread.toNat 1 := by
        intro v hv; simp only [_uv_tcp_recv_cb, hn, if_false]
        exact count_read_stats v nread (by omega) hv
      exact ⟨_, _, _, _, _, key w hok, fun v hv => ⟨_, rfl, key v hv⟩⟩
  | uv_udp_recv hd nread =>
    simp only [dispatch, Option.some.injEq] at h
    subst h
    by_cases hn : nread < 0
    · have key : ∀ v : World, (_uv_udp_recv_cb hd nread v)._stats = v._stats := by
        intro v; simp [_uv_udp_recv_cb, hn]
      refine ⟨0, 0, 0, 0, 0, by rw [key, bump_zero _ hok], ?_⟩
      intro v hv
      exact ⟨_, rfl, by rw [key, bump_zero _ hv]⟩
    · have key : ∀ v : World, v._stats.ok →
          (_uv_udp_recv_cb hd nread v)._stats = v._stats.bump 0 0 0 nread.toNat 1 := by
        intro v hv; simp only [_uv_udp_recv_cb, hn, if_false]
        exact count_read_stats v nread (by omega) hv
      exact ⟨_, _, _, _, _, key w hok, fun v hv => ⟨_, rfl, key v hv⟩⟩
  | uv_closed hd =>
    simp only [dispatch, Option.some.injEq] at h
    subst h
    refine ⟨0, 0, 0, 0, 0, by rw [uv_close_cb_stats, bump_zero _ hok], ?_⟩
    intro v hv
    exact ⟨_, rfl, by rw [uv_close_cb_stats, bump_zero _ hv]⟩

theorem bumpBy_bump_zero (s : stats) (a d c b p : Nat) :
    s.bumpBy (STATS_INIT.bump a d c b p) = s.bump a d c b p := by
  simp [stats.bumpBy, stats.bump, STATS_INIT]

theorem dispatch_shift (e : Event) (he : e ≠ Event.timer) (w w' : World)
    (hok : w._stats.ok) (h : dispatch e w = some w') :
    w'._stats = w._stats.bumpBy (increments e) ∧ w'._stats.ok := by
  obtain ⟨a, d, c, b, p, hs, hall⟩ := dispatch_uniform e he w w' hok h
  obtain ⟨v', hv, hvs⟩ := hall World.start start_ok
  have hi : increments e = STATS_INIT.bump a d c b p := by
    cases e <;> first | exact absurd rfl he | (simp only [increments, hv]; exact hvs)
  rw [hi, bumpBy_bump_zero]
  exact ⟨hs, by rw [hs]; exact bump_ok _ _ _ _ _ _⟩

/-! ## What is printed -/

theorem reports_append (l₁ l₂ : List Op) : reports (l₁ ++ l₂) = reports l₁ ++ reports l₂ := by
  induction l₁ with
  | nil => rfl
  | cons o l ih => cases o <;> simp [reports, ih]

theorem op_reports (w : World) (o : Op) :
    reports (w.op o).log = reports w.log ++ reports [o] := by
  simp [World.op, reports_append]

theorem reports_ev_recv_cb_tail (fd : Int) (w : World) :
    reports (_ev_recv_cb_tail fd w).log = reports w.log := by
  simp [_ev_recv_cb_tail, World.ev_io_stop, World.ev_io_start, World.op, reports_append, reports]

theorem reports_count (w : World) (n : Int) :
    reports ((w.inc_pkts).add_bytes n).log = reports w.log := rfl

theorem reports_ev_shutdown_cb (fd r : Int) (w : World) :
    reports (_ev_shutdown_cb fd r w).log = reports w.log := by
  unfold _ev_shutdown_cb
  split <;> simp [World.ev_io_stop, World.op, reports_append, reports]

theorem reports_ev_recv_cb (fd : Int) : ∀ (xs : List Int) (w w' : World) (rest : List Int),
    _ev_recv_cb fd xs w = some (w', rest) → reports w'.log = reports w.log := by
  intro xs
  induction xs with
  | nil => intro w w' rest h; simp [_ev_recv_cb] at h
  | cons x xs ih =>
    intro w w' rest h
    simp only [_ev_recv_cb] at h
    have q0 : reports (w.op (Op.recv fd)).log = reports w.log := by
      simp [op_reports, reports]
    split_ifs at h
    · simp only [Option.some.injEq, Prod.mk.injEq] at h
      rw [← h.1, reports_ev_recv_cb_tail, q0]
    · simp only [Option.some.injEq, Prod.mk.injEq] at h
      rw [← h.1, reports_count, q0]
    · rw [ih _ _ _ h, reports_count, q0]

theorem reports_ev_accept_cb (fd : Int) :
    ∀ (xs : List AcceptAnswer) (w w' : World) (rest : List AcceptAnswer),
    _ev_accept_cb fd xs w = some (w', rest) → reports w'.log = reports w.log := by
  intro xs
  induction xs with
  | nil => intro w w' rest h; simp [_ev_accept_cb] at h
  | cons a xs ih =>
    intro w w' rest h
    simp only [_ev_accept_cb] at h
    split_ifs at h
    · simp only [Option.some.injEq, Prod.mk.injEq] at h
      rw [← h.1]
      simp [World.inc_accept, World.op, reports_append, reports]
    · simp only [Option.some.injEq, Prod.mk.injEq] at h
      rw [← h.1]
      simp [World.inc_accept, World.inc_accdrop, World.ev_io_stop, World.op, reports_append,
        reports]
    · simp only [Option.some.injEq, Prod.mk.injEq] at h
      rw [← h.1]
      unfold fcntl_ops
      split <;> simp [World.inc_accept, World.inc_accdrop, World.op, reports_append, reports]
    · simp only [Option.some.injEq, Prod.mk.injEq] at h
      rw [← h.1]
      unfold fcntl_ops
      split <;> simp [World.inc_accept, World.inc_accdrop, World.op, reports_append, reports]
    · rw [ih _ _ _ h]
      unfold fcntl_ops
      split <;> simp [World.inc_accept, World.inc_conns, World.ev_io_start, World.op,
        reports_append, reports]

theorem reports_uv_recv (w : World) (h : Nat) (nread : Int) :
    reports (_uv_tcp_recv_cb h nread w).log = reports w.log ∧
      reports (_uv_udp_recv_cb h nread w).log = reports w.log := by
  unfold _uv_tcp_recv_cb _uv_udp_recv_cb
  constructor <;> split <;>
    simp [World.uv_read_stop, World.uv_udp_recv_stop, World.uv_close, World.inc_pkts,
      World.add_bytes, reports_append, reports]

theorem reports_uv_on_connect_cb (a : ConnectAnswer) (w : World) :
    reports (_uv_on_connect_cb a w).log = reports w.log := by
  unfold _uv_on_connect_cb
  split_ifs <;>
    simp [World.uv_read_start, World.uv_close, World.inc_accept, World.inc_accdrop,
      World.inc_conns, World.op, reports_append, reports]

theorem reports_dispatch (e : Event) (he : e ≠ Event.timer) (w w' : World)
    (h : dispatch e w = some w') : reports w'.log = reports w.log := by
  cases e with
  | timer => exact absurd rfl he
  | ev_accept fd xs =>
    cases hq : _ev_accept_cb fd xs w with
    | none => simp [dispatch, hq] at h
    | some q =>
      simp only [dispatch, hq, Option.map_some', Option.some.injEq] at h
      rw [← h]; exact reports_ev_accept_cb fd xs w q.1 q.2 hq
  | ev_recv fd xs =>
    cases hq : _ev_recv_cb fd xs w with
    | none => simp [dispatch, hq] at h
    | some q =>
      simp only [dispatch, hq, Option.map_some', Option.some.injEq] at h
      rw [← h]; exact reports_ev_recv_cb fd xs w q.1 q.2 hq
  | ev_shutdown fd r =>
    simp only [dispatch, Option.some.injEq] at h
    rw [← h]; exact reports_ev_shutdown_cb fd r w
  | uv_connect a =>
    simp only [dispatch, Option.some.injEq] at h
    rw [← h]; exact reports_uv_on_connect_cb a w
  | uv_tcp_recv hd nread =>
    simp only [dispatch, Option.some.injEq] at h
    rw [← h]; exact (reports_uv_recv w hd nread).1
  | uv_udp_recv hd nread =>
    simp only [dispatch, Option.some.injEq] at h
    rw [← h]; exact (reports_uv_recv w hd nread).2
  | uv_closed hd =>
    simp only [dispatch, Option.some.injEq] at h
    rw [← h]; simp [_uv_close_cb, reports_append, reports]

/-! ## Sums of counters -/

theorem plus_init_left (s : stats) : STATS_INIT.plus s = s := by
  cases s; simp [stats.plus, STATS_INIT]

theorem plus_init_right (s : stats) : s.plus STATS_INIT = s := by
  cases s; simp [stats.plus, STATS_INIT]

theorem plus_assoc (a b c : stats) : (a.plus b).plus c = a.plus (b.plus c) := by
  simp [stats.plus, Nat.add_assoc]

theorem total_snoc (l : List stats) (s : stats) : stats.total (l ++ [s]) = (stats.total l).plus s := by
  induction l with
  | nil => simp [stats.total, plus_init_left, plus_init_right]
  | cons x l ih => simp [stats.total, ih, plus_assoc]

theorem run_append (l₁ l₂ : List Event) (w : World) :
    run (l₁ ++ l₂) w = (run l₁ w).bind (run l₂) := by
  induction l₁ generalizing w with
  | nil => simp [run]
  | cons e l ih =>
    simp only [List.cons_append, run]
    cases dispatch e w with
    | none => rfl
    | some w1 => simp [ih]

theorem stats_cb_effect (w : World) :
    reports (stats_cb w).log = reports w.log ++ [w._stats] ∧ (stats_cb w)._stats = STATS_INIT := by
  simp [stats_cb, _stats0, World.op, reports_append, reports]

/-- Between two timer ticks the live counters follow the increments. -/
theorem run_segment : ∀ (seg : List Event) (w w' : World), w._stats.ok → Event.timer ∉ seg →
    run seg w = some w' →
    reports w'.log = reports w.log ∧ w'._stats.ok ∧
      w'._stats.modEq (w._stats.plus (stats.total (seg.map increments))) ∧
      w'._stats.le (w._stats.plus (stats.total (seg.map increments))) := by
  intro seg
  induction seg with
  | nil =>
    intro w w' hok _ h
    simp only [run, Option.some.injEq] at h
    subst h
    simp [stats.total, plus_init_right, stats.modEq, stats.le, hok]
  | cons e es ih =>
    intro w w' hok hne h
    simp only [run] at h
    have he : e ≠ Event.timer := fun h' => hne (by simp [h'])
    have hes : Event.timer ∉ es := fun h' => hne (by simp [h'])
    cases hd : dispatch e w with
    | none => simp [hd] at h
    | some w1 =>
      simp only [hd, Option.some_bind] at h
      obtain ⟨hs, hok1⟩ := dispatch_shift e he w w1 hok hd
      obtain ⟨hr, hok', hm, hl⟩ := ih w1 w' hok1 hes h
      refine ⟨by rw [hr, reports_dispatch e he w w1 hd], hok', ?_, ?_⟩
      · rw [hs] at hm
        simp only [stats.modEq, stats.plus, stats.bumpBy, stats.bump, List.map_cons,
          stats.total, SIZE_MOD] at hm ⊢
        obtain ⟨h1, h2, h3, h4, h5⟩ := hm
        refine ⟨?_, ?_, ?_, ?_, ?_⟩ <;> omega
      · rw [hs] at hl
        simp only [stats.le, stats.plus, stats.bumpBy, stats.bump, List.map_cons,
          stats.total, SIZE_MOD] at hl ⊢
        obtain ⟨h1, h2, h3, h4, h5⟩ := hl
        refine ⟨?_, ?_, ?_, ?_, ?_⟩ <;> omega

/-- Over a whole run, what was printed plus what is live follows the
increments. -/
theorem run_total : ∀ (tr : List Event) (w w' : World), w._stats.ok → run tr w = some w' →
    w'._stats.ok ∧
      ((stats.total (reports w'.log)).plus w'._stats).modEq
        (((stats.total (reports w.log)).plus w._stats).plus (stats.total (tr.map increments))) ∧
      ((stats.total (reports w'.log)).plus w'._stats).le
        (((stats.total (reports w.log)).plus w._stats).plus (stats.total (tr.map increments))) := by
  intro tr
  induction tr with
  | nil =>
    intro w w' hok h
    simp only [run, Option.some.injEq] at h
    subst h
    simp [stats.total, plus_init_right, stats.modEq, stats.le, hok]
  | cons e es ih =>
    intro w w' hok h
    simp only [run] at h
    cases hd : dispatch e w with
    | none => simp [hd] at h
    | some w1 =>
      simp only [hd, Option.some_bind] at h
      by_cases he : e = Event.timer
      · subst he
        simp only [dispatch, Option.some.injEq] at hd
        subst hd
        obtain ⟨hr, hz⟩ := stats_cb_effect w
        obtain ⟨hok', hm, hl⟩ := ih _ w' (by rw [hz]; exact start_ok) h
        rw [hr, hz, total_snoc, plus_init_right] at hm hl
        simp only [List.map_cons, stats.total, increments, plus_init_left]
        exact ⟨hok', hm, hl⟩
      · obtain ⟨hs, hok1⟩ := dispatch_shift e he w w1 hok hd
        obtain ⟨hok', hm, hl⟩ := ih w1 w' hok1 h
        rw [reports_dispatch e he w w1 hd, hs] at hm hl
        refine ⟨hok', ?_, ?_⟩
        · simp only [stats.modEq, stats.plus, stats.bumpBy, stats.bump, List.map_cons,
            stats.total, SIZE_MOD] at hm ⊢
          obtain ⟨h1, h2, h3, h4, h5⟩ := hm
          refine ⟨?_, ?_, ?_, ?_, ?_⟩ <;> omega
        · simp only [stats.le, stats.plus, stats.bumpBy, stats.bump, List.map_cons,
            stats.total, SIZE_MOD] at hl ⊢
          obtain ⟨h1, h2, h3, h4, h5⟩ := hl
          refine ⟨?_, ?_, ?_, ?_, ?_⟩ <;> omega

/-! ## Sequences of accepts -/

theorem ev_accept_calls_effect (fd : Int) :
    ∀ (n : Nat) (xs : List AcceptAnswer) (w w' : World) (rest : List AcceptAnswer),
    w._stats.ok → ev_accept_calls fd n xs w = some (w', rest) →
    ∃ used, xs = used ++ rest ∧ w'._stats.ok ∧
      w'._stats = w._stats.bump used.length (used.filter AcceptAnswer.failed).length
        (used.filter AcceptAnswer.set_up).length 0 0 := by
  intro n
  induction n with
  | zero =>
    intro xs w w' rest hok h
    simp only [ev_accept_calls, Option.some.injEq, Prod.mk.injEq] at h
    obtain ⟨rfl, rfl⟩ := h
    exact ⟨[], rfl, hok, by simp [bump_zero _ hok]⟩
  | succ n ih =>
    intro xs w w' rest hok h
    simp only [ev_accept_calls] at h
    cases hc : _ev_accept_cb fd xs w with
    | none => simp [hc] at h
    | some r =>
      obtain ⟨w1, r1⟩ := r
      simp only [hc] at h
      obtain ⟨u1, hu1, hs1⟩ := ev_accept_cb_effect fd xs w w1 r1 hok hc
      obtain ⟨u2, hu2, hok2, hs2⟩ := ih r1 w1 w' rest (by rw [hs1]; exact bump_ok _ _ _ _ _ _) h
      refine ⟨u1 ++ u2, by rw [hu1, hu2, List.append_assoc], hok2, ?_⟩
      rw [hs2, hs1, bump_bump]
      simp

theorem uv_connect_calls_effect : ∀ (as : List ConnectAnswer) (w : World), w._stats.ok →
    (uv_connect_calls as w)._stats =
      w._stats.bump (as.filter ConnectAnswer.accepted).length
        (as.filter (fun a => !a.accepted)).length (as.filter ConnectAnswer.set_up).length 0 0 := by
  intro as
  induction as with
  | nil => intro w hok; simp [uv_connect_calls, bump_zero _ hok]
  | cons a as ih =>
    intro w hok
    have he := uv_on_connect_cb_effect a w hok
    simp only [uv_connect_calls]
    rw [ih _ (by rw [he]; exact bump_ok _ _ _ _ _ _), he, bump_bump]
    have h1 : (a.status = 0 ∧ a.tcp_init = 0 ∧ a.accept = 0) ↔ a.accepted = true := by
      simp [ConnectAnswer.accepted, and_assoc]
    have h2 : (a.status = 0 ∧ a.tcp_init = 0 ∧ a.accept = 0 ∧ a.read_start = 0) ↔
        a.set_up = true := by
      simp [ConnectAnswer.set_up, ConnectAnswer.accepted, and_assoc]
    simp only [h1, h2, List.filter_cons]
    cases ha : a.accepted <;> cases hs : a.set_up <;> simp [Nat.add_comm]

theorem ev_accept_cb_returns (fd : Int) : ∀ (pre : List AcceptAnswer) (a : AcceptAnswer)
    (rest : List AcceptAnswer) (w : World), (∀ x ∈ pre, x.set_up = true) → a.set_up = false →
    ∃ w', _ev_accept_cb fd (pre ++ a :: rest) w = some (w', rest) := by
  intro pre
  induction pre with
  | nil =>
    intro a rest w _ ha
    simp only [List.nil_append, _ev_accept_cb]
    simp only [AcceptAnswer.set_up, Bool.and_eq_false_iff, decide_eq_false_iff_not] at ha
    split_ifs with h1 h2 h3 h4
    · exact ⟨_, rfl⟩
    · exact ⟨_, rfl⟩
    · exact ⟨_, rfl⟩
    · exact ⟨_, rfl⟩
    · exfalso
      rcases ha with ((ha | ha) | ha) | ha
      · omega
      · exact h3 (Or.inl (by simpa using ha))
      · exact h3 (Or.inr ha)
      · exact h4 ha
  | cons x pre ih =>
    intro a rest w hpre ha
    have hx := hpre x (by simp)
    simp only [AcceptAnswer.set_up, Bool.and_eq_true, decide_eq_true_eq] at hx
    obtain ⟨⟨⟨hx1, hx2⟩, hx3⟩, hx4⟩ := hx
    simp only [List.cons_append, _ev_accept_cb]
    rw [if_neg (by omega), if_neg (by simp [hx2, hx3]), if_neg (by simp [hx4])]
    exact ih a rest _ (fun y hy => hpre y (by simp [hy])) ha

theorem filter_length_mono {α : Type} (p q : α → Bool) (l : List α)
    (h : ∀ x, p x = true → q x = true) : (l.filter p).length ≤ (l.filter q).length := by
  induction l with
  | nil => simp
  | cons x l ih =>
    simp only [List.filter_cons]
    cases hp : p x
    · cases hq : q x <;> simp <;> omega
    · simp [h x hp, ih]

theorem ev_set_up_accepted (a : AcceptAnswer) (h : a.set_up = true) : a.accepted = true := by
  simp only [AcceptAnswer.set_up, Bool.and_eq_true, decide_eq_true_eq] at h
  simp [AcceptAnswer.accepted, h.1.1.1]

theorem uv_set_up_accepted (a : ConnectAnswer) (h : a.set_up = true) : a.accepted = true := by
  simp only [ConnectAnswer.set_up, Bool.and_eq_true] at h
  exact h.1

theorem filter_set_up_all (pre : List AcceptAnswer) (h : ∀ x ∈ pre, x.set_up = true) :
    pre.filter AcceptAnswer.set_up = pre ∧ pre.filter AcceptAnswer.failed = [] := by
  constructor
  · exact List.filter_eq_self.mpr h
  · apply List.filter_eq_nil_iff.mpr
    intro x hx
    simp [AcceptAnswer.failed, h x hx]

/-- The libev accept callback over connections set up followed by one attempt
that does not end in a connection set up. -/
theorem ev_accept_cb_run (fd : Int) (pre : List AcceptAnswer) (a : AcceptAnswer)
    (rest : List AcceptAnswer) (w : World) (hok : w._stats.ok)
    (hpre : ∀ x ∈ pre, x.set_up = true) (ha : a.set_up = false) :
    ∃ w', _ev_accept_cb fd (pre ++ a :: rest) w = some (w', rest) ∧
      w'._stats = w._stats.bump (pre.length + 1) (if a.failed then 1 else 0) pre.length 0 0 := by
  obtain ⟨w', hw⟩ := ev_accept_cb_returns fd pre a rest w hpre ha
  obtain ⟨used, hu, hs⟩ := ev_accept_cb_effect fd _ w w' rest hok hw
  have hu' : used = pre ++ [a] := by
    have hu2 : used ++ rest = (pre ++ [a]) ++ rest := by rw [← hu]; simp
    exact List.append_cancel_right hu2
  subst hu'
  refine ⟨w', hw, ?_⟩
  rw [hs]
  obtain ⟨h1, h2⟩ := filter_set_up_all pre hpre
  simp only [List.filter_append, h1, h2, List.length_append, List.length_singleton,
    List.nil_append, List.filter_cons, ha, List.filter_nil]
  cases a.failed <;> simp

/-! ## The read loop -/

theorem count_reads_watchers (fd : Int) : ∀ (pre : List Int) (w : World),
    (count_reads fd pre w).watchers = w.watchers := by
  intro pre
  induction pre with
  | nil => intro w; rfl
  | cons x xs ih => intro w; simp only [count_reads]; rw [ih]; rfl

theorem count_reads_log (fd : Int) : ∀ (pre : List Int) (w : World),
    (count_reads fd pre w).log = w.log ++ List.replicate pre.length (Op.recv fd) := by
  intro pre
  induction pre with
  | nil => intro w; simp [count_reads]
  | cons x xs ih =>
    intro w
    simp only [count_reads]
    rw [ih]
    simp [World.op, World.inc_pkts, World.add_bytes, List.replicate_succ]

theorem ev_recv_cb_full (fd : Int) : ∀ (pre : List Int) (r : Int) (rest : List Int) (w : World),
    (∀ x ∈ pre, (sizeof_recvbuf : Int) ≤ x) → r < (sizeof_recvbuf : Int) →
    _ev_recv_cb fd (pre ++ r :: rest) w =
      some (if r < 1 then _ev_recv_cb_tail fd ((count_reads fd pre w).op (Op.recv fd))
        else count_reads fd [r] (count_reads fd pre w), rest) := by
  intro pre
  induction pre with
  | nil =>
    intro r rest w _ hr
    simp only [List.nil_append, _ev_recv_cb, count_reads]
    by_cases h1 : r < 1
    · simp [h1]
    · simp [h1, hr]
  | cons x xs ih =>
    intro r rest w hpre hr
    have hx := hpre x (by simp)
    have hb : (0 : Int) < (sizeof_recvbuf : Int) := by decide
    simp only [List.cons_append, _ev_recv_cb, count_reads]
    rw [if_neg (by omega), if_neg (by omega)]
    exact ih r rest _ (fun y hy => hpre y (by simp [hy])) hr

theorem registered_after_start (w : World) (fd : Int) (cb : Callback) :
    registered ((w.ev_io_stop fd).ev_io_start fd cb) fd = some cb := by
  simp only [registered, World.ev_io_start, World.ev_io_stop, Option.map_eq_some', Prod.exists,
    exists_eq_right]
  refine ⟨fd, ?_⟩
  rw [List.find?_append]
  have : List.find? (fun p => decide (p.1 = fd)) (w.watchers.filter (fun p => decide (p.1 ≠ fd)))
      = none := by
    apply List.find?_eq_none.mpr
    intro x hx
    have := (List.mem_filter.mp hx).2
    simpa using this
  rw [this]
  simp

/-! ## The life of a libev connection -/

theorem registered_after_stop (w : World) (fd : Int) :
    registered (w.ev_io_stop fd) fd = none := by
  simp only [registered, World.ev_io_stop, Option.map_eq_none']
  apply List.find?_eq_none.mpr
  intro x hx
  have := (List.mem_filter.mp hx).2
  simpa using this

theorem registered_count (fd : Int) (x : Int) (w : World) :
    registered (((w.op (Op.recv fd)).inc_pkts).add_bytes x) fd = registered w fd := rfl

theorem ev_shutdown_cb_end (fd : Int) (r : Int) (w : World) (hr : r ≤ 0) :
    registered (_ev_shutdown_cb fd r w) fd = none ∧
      (_ev_shutdown_cb fd r w).log =
        w.log ++ [Op.recv fd, Op.ev_io_stop fd, Op.close fd, Op.free fd] := by
  have h' : ¬ r > 0 := by omega
  constructor
  · simp only [_ev_shutdown_cb, h', if_false]
    exact registered_after_stop _ fd
  · simp [_ev_shutdown_cb, h', World.op, World.ev_io_stop]

theorem ev_recv_cb_tail_state (fd : Int) (w : World) :
    registered (_ev_recv_cb_tail fd w) fd = some Callback.ev_shutdown_cb ∧
      (_ev_recv_cb_tail fd w).log = w.log ++
        [Op.ev_io_stop fd, Op.shutdown fd SHUT_RDWR, Op.ev_io_start fd Callback.ev_shutdown_cb] := by
  constructor
  · exact registered_after_start _ fd _
  · simp [_ev_recv_cb_tail, World.ev_io_start, World.ev_io_stop, World.op]

/-- From inside an invocation of `_ev_recv_cb`: positive reads, end of stream,
and end of stream again in the draining callback. -/
theorem ev_conn_life (fd : Int) : ∀ (ps : List Int), (∀ p ∈ ps, 0 < p) →
    ∀ (n : Nat) (w : World), registered w fd = some Callback.ev_recv_cb → ps.length + 1 ≤ n →
    ∃ (act : List World) (wd wc : World),
      (match _ev_recv_cb fd (ps ++ [0, 0]) w with
        | none => []
        | some r => r.1 :: ev_conn_trace fd n r.2 r.1) = act ++ [wd, wc] ∧
      (∀ x ∈ act, conn_state x fd = ConnState.ACTIVE) ∧
      conn_state wd fd = ConnState.DRAINING ∧ conn_state wc fd = ConnState.CLOSED ∧
      wc.log = w.log ++ List.replicate (ps.length + 1) (Op.recv fd) ++
        [Op.ev_io_stop fd, Op.shutdown fd SHUT_RDWR, Op.ev_io_start fd Callback.ev_shutdown_cb,
          Op.recv fd, Op.ev_io_stop fd, Op.close fd, Op.free fd] := by
  intro ps
  induction ps with
  | nil =>
    intro _ n w _ hn
    obtain ⟨k, rfl⟩ : ∃ k, n = k + 1 := ⟨n - 1, by omega⟩
    obtain ⟨ht1, ht2⟩ := ev_recv_cb_tail_state fd (w.op (Op.recv fd))
    obtain ⟨hs1, hs2⟩ := ev_shutdown_cb_end fd 0 (_ev_recv_cb_tail fd (w.op (Op.recv fd)))
      (by decide)
    refine ⟨[], _ev_recv_cb_tail fd (w.op (Op.recv fd)),
      _ev_shutdown_cb fd 0 (_ev_recv_cb_tail fd (w.op (Op.recv fd))), ?_, by simp, ?_, ?_, ?_⟩
    · have h1 : _ev_recv_cb fd ([] ++ [0, 0]) w
          = some (_ev_recv_cb_tail fd (w.op (Op.recv fd)), [0]) := by
        simp [_ev_recv_cb]
      rw [h1]
      simp only [ev_conn_trace, ev_readable, ht1, List.nil_append, List.cons.injEq, true_and]
      cases k with
      | zero => simp [ev_conn_trace]
      | succ k => simp [ev_conn_trace, ev_readable, hs1]
    · simp [conn_state, ht1]
    · simp [conn_state, hs1]
    · rw [hs2, ht2]
      simp [World.op]
  | cons p ps ih =>
    intro hps n w hw hn
    have hp : 0 < p := hps p (by simp)
    have hps' : ∀ q ∈ ps, 0 < q := fun q hq => hps q (by simp [hq])
    have hreg := registered_count fd p w
    simp only [List.cons_append, _ev_recv_cb, List.length_cons] at hn ⊢
    rw [if_neg (by omega)]
    by_cases hb : p < (sizeof_recvbuf : Int)
    · rw [if_pos hb]
      obtain ⟨k, rfl⟩ : ∃ k, n = k + 1 := ⟨n - 1, by omega⟩
      obtain ⟨act, wd, wc, h1, h2, h3, h4, h5⟩ :=
        ih hps' k _ (by rw [hreg]; exact hw) (by omega)
      refine ⟨(((w.op (Op.recv fd)).inc_pkts).add_bytes p) :: act, wd, wc, ?_, ?_, h3, h4, ?_⟩
      · simp only [ev_conn_trace, ev_readable, hreg, hw, List.cons_append, List.cons.injEq,
          true_and]
        exact h1
      · intro x hx
        rcases List.mem_cons.mp hx with rfl | hx
        · simp [conn_state, hreg, hw]
        · exact h2 x hx
      · rw [h5]
        simp [World.op, World.inc_pkts, World.add_bytes, List.replicate_succ]
    · rw [if_neg hb]
      obtain ⟨act, wd, wc, h1, h2, h3, h4, h5⟩ :=
        ih hps' n _ (by rw [hreg]; exact hw) (by omega)
      refine ⟨act, wd, wc, h1, h2, h3, h4, ?_⟩
      rw [h5]
      simp [World.op, World.inc_pkts, World.add_bytes, List.replicate_succ]

theorem ev_accepted_eq (lfd newfd : Int) (h : 0 ≤ newfd) :
    ev_accepted lfd newfd = some ⟨⟨2, 0, 1, 0, 0⟩,
      [(lfd, Callback.ev_accept_cb), (newfd, Callback.ev_recv_cb)], [], [],
      [Op.ev_io_start lfd Callback.ev_accept_cb, Op.accept lfd, Op.fcntl newfd, Op.fcntl newfd,
        Op.ev_io_start newfd Callback.ev_recv_cb, Op.accept lfd]⟩ := by
  have h' : ¬ newfd < 0 := by omega
  simp [ev_accepted, _ev_accept_cb, ev_listen, fcntl_ops, h', EAGAIN, SOCK_STREAM, World.start,
    World.op, World.inc_accept, World.inc_conns, World.ev_io_start, STATS_INIT, SIZE_MOD]

theorem regs_ok_recvs (fd : Int) (l : List Op) (n : Nat) (hn : n ≤ 1) : ∀ m : Nat,
    regs_ok fd (List.replicate m (Op.recv fd) ++ l) n = regs_ok fd l n := by
  intro m
  induction m with
  | zero => simp
  | succ m ih => simp [List.replicate_succ, regs_ok, hn, ih]

theorem dropWhile_skip {α : Type} (p : α → Bool) (l₁ l₂ : List α) (h : ∀ x ∈ l₁, p x = true) :
    (l₁ ++ l₂).dropWhile p = l₂.dropWhile p := by
  induction l₁ with
  | nil => rfl
  | cons x l ih =>
    simp only [List.cons_append, List.dropWhile_cons, h x (by simp), if_true]
    exact ih (fun y hy => h y (by simp [hy]))

/-- The log of a libev connection from its accept to its close. -/
theorem conn_log_facts (lfd newfd : Int) (hne : newfd ≠ lfd) (m : Nat) (L : List Op)
    (hL : L = [Op.ev_io_start lfd Callback.ev_accept_cb, Op.accept lfd, Op.fcntl newfd,
        Op.fcntl newfd, Op.ev_io_start newfd Callback.ev_recv_cb, Op.accept lfd] ++
      List.replicate m (Op.recv newfd) ++
      [Op.ev_io_stop newfd, Op.shutdown newfd SHUT_RDWR,
        Op.ev_io_start newfd Callback.ev_shutdown_cb, Op.recv newfd, Op.ev_io_stop newfd,
        Op.close newfd, Op.free newfd]) :
    L.count (Op.close newfd) = 1 ∧ regs_ok newfd L 0 = true ∧
      after_close newfd L = [Op.free newfd] := by
  have hne' : ¬ lfd = newfd := fun h => hne h.symm
  subst hL
  refine ⟨?_, ?_, ?_⟩
  · simp [List.count_append, List.count_cons, List.count_replicate]
  · simp only [List.cons_append, List.nil_append, List.append_assoc, regs_ok, hne', if_false,
      if_true]
    have hr := regs_ok_recvs newfd [Op.ev_io_stop newfd, Op.shutdown newfd SHUT_RDWR,
      Op.ev_io_start newfd Callback.ev_shutdown_cb, Op.recv newfd, Op.ev_io_stop newfd,
      Op.close newfd, Op.free newfd] 1 (by decide) m
    simp only [List.append_eq, List.nil_append, Nat.zero_add, hr]
    simp [regs_ok]
  · unfold after_close
    rw [List.append_assoc, dropWhile_skip _ _ _ (by simp), dropWhile_skip _ _ _ (by simp)]
    simp [List.dropWhile_cons]

theorem uv_tcp_reads_keep (h : Nat) : ∀ (ps : List Int) (w : World), (∀ p ∈ ps, 0 ≤ p) →
    (uv_tcp_reads h ps w).log = w.log ∧ (uv_tcp_reads h ps w).uv_reading = w.uv_reading ∧
      (uv_tcp_reads h ps w).uv_closing = w.uv_closing := by
  intro ps
  induction ps with
  | nil => intro w _; exact ⟨rfl, rfl, rfl⟩
  | cons p ps ih =>
    intro w hps
    have hp : ¬ p < 0 := by have := hps p (by simp); omega
    obtain ⟨h1, h2, h3⟩ := ih (_uv_tcp_recv_cb h p w) (fun q hq => hps q (by simp [hq]))
    simp only [uv_tcp_reads]
    rw [h1, h2, h3]
    simp [_uv_tcp_recv_cb, hp, World.inc_pkts, World.add_bytes]

theorem registered_fresh (w : World) (fd : Int) (cb : Callback) (h : registered w fd = none) :
    registered (w.ev_io_start fd cb) fd = some cb := by
  simp only [registered, Option.map_eq_none'] at h
  simp [registered, World.ev_io_start, List.find?_append, h]

theorem ev_listen_dgram (fd : Int) (w : World) (h : registered w fd = none) :
    registered (ev_listen fd SOCK_DGRAM w) fd = some Callback.ev_recv_cb ∧
      (ev_listen fd SOCK_DGRAM w).log = w.log ++ [Op.ev_io_start fd Callback.ev_recv_cb] := by
  have hk : ¬ SOCK_DGRAM = SOCK_STREAM := by decide
  simp only [ev_listen, hk, if_false]
  exact ⟨registered_fresh w fd _ h, rfl⟩

/-! ## Totals of a scenario -/

theorem total_append (l₁ l₂ : List stats) :
    stats.total (l₁ ++ l₂) = (stats.total l₁).plus (stats.total l₂) := by
  induction l₁ with
  | nil => simp [stats.total, plus_init_left]
  | cons x l ih => simp [stats.total, ih, plus_assoc]

theorem total_filter_timer (tr : List Event) :
    stats.total (tr.map increments) =
      stats.total ((tr.filter (fun e => decide (e ≠ Event.timer))).map increments) := by
  induction tr with
  | nil => rfl
  | cons e es ih =>
    by_cases he : e = Event.timer
    · subst he
      simp [stats.total, increments, plus_init_left, ih]
    · simp [List.filter_cons, he, stats.total, ih]

theorem run_returns : ∀ (tr : List Event), (∀ e ∈ tr, ∀ w, ∃ w', dispatch e w = some w') →
    ∀ w, ∃ w', run tr w = some w' := by
  intro tr
  induction tr with
  | nil => intro _ w; exact ⟨w, rfl⟩
  | cons e es ih =>
    intro h w
    obtain ⟨w1, h1⟩ := h e (by simp) w
    obtain ⟨w2, h2⟩ := ih (fun x hx => h x (by simp [hx])) w1
    exact ⟨w2, by simp [run, h1, h2]⟩

theorem mem_le_sum (cs : List Nat) (c : Nat) (h : c ∈ cs) : c ≤ cs.sum := by
  induction cs with
  | nil => simp at h
  | cons x xs ih =>
    rcases List.mem_cons.mp h with rfl | h
    · simp
    · have := ih h
      simp only [List.sum_cons]
      omega

theorem small_chunk (c : Nat) (h0 : 0 < c) (h1 : c ≤ 60) :
    ¬ ((c : Int) < 1) ∧ (c : Int) < (sizeof_recvbuf : Int) ∧ ¬ ((c : Int) < 0) ∧
      ((c : Int) % (SIZE_MOD : Int)).toNat = c ∧ c % SIZE_MOD = c ∧ (0 + c) % SIZE_MOD = c := by
  have hs : sizeof_recvbuf = 4194304 := by decide
  have hm : c < SIZE_MOD := by simp only [SIZE_MOD]; omega
  refine ⟨by omega, by rw [hs]; omega, by omega, ?_, Nat.mod_eq_of_lt hm, by simp [Nat.mod_eq_of_lt hm]⟩
  rw [toNat_emod_size _ (by omega)]
  simp [Nat.mod_eq_of_lt hm]

theorem chunk_increments (fd : Int) (h : Nat) (c : Nat) (h0 : 0 < c) (h1 : c ≤ 60) :
    increments (Event.ev_recv fd [(c : Int)]) = ⟨0, 0, 0, c, 1⟩ ∧
      increments (Event.uv_tcp_recv h (c : Int)) = ⟨0, 0, 0, c, 1⟩ := by
  obtain ⟨a1, a2, a3, a4, a5, a6⟩ := small_chunk c h0 h1
  constructor
  · simp [increments, dispatch, _ev_recv_cb, a1, a2, World.start, World.op, World.inc_pkts,
      World.add_bytes, STATS_INIT, a4, a5]
    decide
  · simp [increments, dispatch, _uv_tcp_recv_cb, a3, World.start, World.inc_pkts,
      World.add_bytes, STATS_INIT, a4, a5]
    decide

theorem chunks_total (f : Nat → Event) (cs : List Nat)
    (hf : ∀ c ∈ cs, increments (f c) = ⟨0, 0, 0, c, 1⟩) :
    stats.total ((cs.map f).map increments) = ⟨0, 0, 0, cs.sum, cs.length⟩ := by
  induction cs with
  | nil => rfl
  | cons c cs ih =>
    simp only [List.map_cons, stats.total, List.sum_cons, List.length_cons]
    rw [ih (fun x hx => hf x (by simp [hx])), hf c (by simp)]
    simp [stats.plus, Nat.add_comm]

theorem eq_of_modEq_le (s t : stats) (hm : s.modEq t) (hl : s.le t) (hk : t.ok) : s = t := by
  cases s; cases t
  simp only [stats.modEq, stats.le, stats.ok, SIZE_MOD] at hm hl hk
  simp only [stats.mk.injEq]
  omega

theorem length_le_sum (cs : List Nat) (h : ∀ c ∈ cs, 0 < c) : cs.length ≤ cs.sum := by
  induction cs with
  | nil => simp
  | cons x xs ih =>
    have := ih (fun c hc => h c (by simp [hc]))
    have := h x (by simp)
    simp only [List.length_cons, List.sum_cons]
    omega

theorem pos_length_of_sum (cs : List Nat) (h : cs.sum = 60) : 1 ≤ cs.length := by
  cases cs with
  | nil => simp at h
  | cons x xs => simp

theorem mem_of_filter_timer (tr base : List Event)
    (h : tr.filter (fun e => decide (e ≠ Event.timer)) = base) (e : Event) (he : e ∈ tr) :
    e = Event.timer ∨ e ∈ base := by
  by_cases ht : e = Event.timer
  · exact Or.inl ht
  · right
    rw [← h]
    exact List.mem_filter.mpr ⟨he, by simpa using ht⟩

/-- Whatever ticks are interleaved, what is printed plus what is live is the
total of the increments of the callbacks, when these all return and the total
fits a `size_t`. -/
theorem scenario_totals (tr base : List Event) (T : stats)
    (h : tr.filter (fun e => decide (e ≠ Event.timer)) = base)
    (hret : ∀ e ∈ base, ∀ w, ∃ w', dispatch e w = some w')
    (hT : stats.total (base.map increments) = T) (hok : T.ok) :
    ∃ w', run tr World.start = some w' ∧ (stats.total (reports w'.log)).plus w'._stats = T := by
  obtain ⟨w', hw⟩ := run_returns tr (by
    intro e he w
    rcases mem_of_filter_timer tr base h e he with rfl | hb
    · exact ⟨_, rfl⟩
    · exact hret e hb w) World.start
  obtain ⟨_, hm, hl⟩ := run_total tr World.start w' start_ok hw
  have h0 : (stats.total (reports World.start.log)).plus World.start._stats = STATS_INIT := rfl
  rw [h0, plus_init_left, total_filter_timer, h, hT] at hm hl
  exact ⟨w', hw, eq_of_modEq_le _ _ hm hl hok⟩

theorem ev_scenario_facts (lfd newfd : Int) (cs : List Nat) (h0 : 0 ≤ newfd)
    (hpos : ∀ c ∈ cs, 0 < c) (hsum : cs.sum = 60) :
    (∀ e ∈ ev_scenario lfd newfd cs, ∀ w, ∃ w', dispatch e w = some w') ∧
      stats.total ((ev_scenario lfd newfd cs).map increments) = ⟨2, 0, 1, 60, cs.length⟩ := by
  have hn : ¬ newfd < 0 := by omega
  constructor
  · intro e he w
    simp only [ev_scenario, List.mem_append, List.mem_cons, List.mem_map, List.mem_singleton,
      List.not_mem_nil, or_false] at he
    rcases he with (rfl | ⟨c, hc, rfl⟩) | rfl | rfl
    · obtain ⟨w', hw'⟩ := ev_accept_cb_returns lfd [⟨newfd, 0, 0, 0, true⟩]
        ⟨-1, EAGAIN, 0, 0, true⟩ [] w
        (by intro x hx; rw [List.mem_singleton.mp hx]; simp [AcceptAnswer.set_up, h0])
        (by simp [AcceptAnswer.set_up])
      exact ⟨w', by simp only [dispatch]; rw [show [(⟨newfd, 0, 0, 0, true⟩ : AcceptAnswer),
        ⟨-1, EAGAIN, 0, 0, true⟩] = [⟨newfd, 0, 0, 0, true⟩] ++ ⟨-1, EAGAIN, 0, 0, true⟩ :: []
        from rfl, hw']; rfl⟩
    · obtain ⟨a1, a2, _⟩ := small_chunk c (hpos c hc) (hsum ▸ mem_le_sum cs c hc)
      simp [dispatch, _ev_recv_cb, a1, a2]
    · simp [dispatch, _ev_recv_cb]
    · exact ⟨_, rfl⟩
  · have e1 : increments (Event.ev_accept lfd [⟨newfd, 0, 0, 0, true⟩, ⟨-1, EAGAIN, 0, 0, true⟩])
        = ⟨2, 0, 1, 0, 0⟩ := by
      simp [increments, dispatch, _ev_accept_cb, fcntl_ops, hn, EAGAIN, World.start, World.op,
        World.inc_accept, World.inc_conns, World.ev_io_start, STATS_INIT, SIZE_MOD]
    have e2 : increments (Event.ev_recv newfd [0]) = STATS_INIT := by
      simp [increments, dispatch, _ev_recv_cb, _ev_recv_cb_tail, World.start, World.op,
        World.ev_io_stop, World.ev_io_start]
    have e3 : increments (Event.ev_shutdown newfd 0) = STATS_INIT := by
      simp [increments, dispatch, _ev_shutdown_cb, World.start, World.op, World.ev_io_stop]
    have e4 := chunks_total (fun (c : Nat) => Event.ev_recv newfd [(c : Int)]) cs
      (fun c hc => (chunk_increments newfd 0 c (hpos c hc) (hsum ▸ mem_le_sum cs c hc)).1)
    unfold ev_scenario
    rw [List.map_append, List.map_append, total_append, total_append, e4]
    simp only [List.map_cons, List.map_nil, stats.total, e1, e2, e3, hsum]
    simp [stats.plus, STATS_INIT]

theorem uv_scenario_facts (h : Nat) (cs : List Nat) (hpos : ∀ c ∈ cs, 0 < c)
    (hsum : cs.sum = 60) :
    (∀ e ∈ uv_scenario h cs, ∀ w, ∃ w', dispatch e w = some w') ∧
      stats.total ((uv_scenario h cs).map increments) = ⟨1, 0, 1, 60, cs.length⟩ := by
  constructor
  · intro e he w
    simp only [uv_scenario, List.mem_append, List.mem_cons, List.mem_map, List.mem_singleton,
      List.not_mem_nil, or_false] at he
    rcases he with (rfl | ⟨c, _, rfl⟩) | rfl | rfl <;> exact ⟨_, rfl⟩
  · have e1 : increments (Event.uv_connect ⟨0, h, 0, 0, 0⟩) = ⟨1, 0, 1, 0, 0⟩ := by
      simp [increments, dispatch, _uv_on_connect_cb, World.start, World.op, World.inc_accept,
        World.inc_conns, World.uv_read_start, STATS_INIT, SIZE_MOD]
    have e2 : increments (Event.uv_tcp_recv h UV_EOF) = STATS_INIT := by
      simp [increments, dispatch, _uv_tcp_recv_cb, UV_EOF, World.start, World.uv_read_stop,
        World.uv_close]
    have e3 : increments (Event.uv_closed h) = STATS_INIT := by
      simp [increments, dispatch, _uv_close_cb, World.start]
    have e4 := chunks_total (fun (c : Nat) => Event.uv_tcp_recv h (c : Int)) cs
      (fun c hc => (chunk_increments 0 h c (hpos c hc) (hsum ▸ mem_le_sum cs c hc)).2)
    unfold uv_scenario
    rw [List.map_append, List.map_append, total_append, total_append, e4]
    simp only [List.map_cons, List.map_nil, stats.total, e1, e2, e3, hsum]
    simp [stats.plus, STATS_INIT]

/-! ## Claims -/

/-- C1: `stats_cb` prints the five live counters and leaves all five at zero;
a tick that follows a reset (or the start) prints, for each counter, the
increments applied since then, in `size_t` arithmetic; and over any run from
start-up, whatever the interleaving of callbacks and ticks, the values printed
plus the live value agree with the total of the increments applied, modulo
`2 ^ 64` always and exactly when that total is a `size_t` value. -/
theorem C1_snapshot_and_reset :
    (∀ w : World, reports (stats_cb w).log = reports w.log ++ [w._stats] ∧
      (stats_cb w)._stats = ⟨0, 0, 0, 0, 0⟩) ∧
    (∀ (seg : List Event) (w w' : World), w._stats = ⟨0, 0, 0, 0, 0⟩ → Event.timer ∉ seg →
      run (seg ++ [Event.timer]) w = some w' →
      ∃ s : stats, reports w'.log = reports w.log ++ [s] ∧ w'._stats = ⟨0, 0, 0, 0, 0⟩ ∧
        s.modEq (stats.total (seg.map increments)) ∧
        ((stats.total (seg.map increments)).ok → s = stats.total (seg.map increments))) ∧
    (∀ (tr : List Event) (w' : World), run tr World.start = some w' →
      ((stats.total (reports w'.log)).plus w'._stats).modEq (stats.total (tr.map increments)) ∧
      ((stats.total (tr.map increments)).ok →
        (stats.total (reports w'.log)).plus w'._stats = stats.total (tr.map increments))) := by
  have exact_of : ∀ s t : stats, s.modEq t → s.le t → t.ok → s = t := by
    intro s t hm hl hk
    cases s; cases t
    simp only [stats.modEq, stats.le, stats.ok, SIZE_MOD] at hm hl hk
    simp only [stats.mk.injEq]
    omega
  refine ⟨fun w => stats_cb_effect w, ?_, ?_⟩
  · intro seg w w' hz hne h
    rw [run_append] at h
    cases hs : run seg w with
    | none => simp [hs] at h
    | some w1 =>
      simp only [hs, Option.some_bind, run, dispatch, Option.some.injEq] at h
      subst h
      have hz' : w._stats = STATS_INIT := hz
      obtain ⟨hr, _, hm, hl⟩ := run_segment seg w w1 (by rw [hz']; exact start_ok) hne hs
      rw [hz', plus_init_left] at hm hl
      obtain ⟨hr2, hz2⟩ := stats_cb_effect w1
      exact ⟨w1._stats, by rw [hr2, hr], hz2, hm, exact_of _ _ hm hl⟩
  · intro tr w' h
    obtain ⟨_, hm, hl⟩ := run_total tr World.start w' start_ok h
    have h0 : (stats.total (reports World.start.log)).plus World.start._stats = STATS_INIT := rfl
    rw [h0, plus_init_left] at hm hl
    exact ⟨hm, exact_of _ _ hm hl⟩

/-- C1 on a run: a connection is accepted and sends 10 bytes, a tick, 50 more
bytes and end of stream, a tick, and the drain: the two lines printed add up
to the increments applied. -/
theorem C1_snapshot_and_reset_witness :
    ∃ w', run sample_run World.start = some w' ∧
      reports w'.log = [⟨2, 0, 1, 10, 1⟩, ⟨0, 0, 0, 50, 1⟩] ∧
      (stats.total (reports w'.log)).plus w'._stats = ⟨2, 0, 1, 60, 2⟩ := by
  refine ⟨_, rfl, by decide, ?_⟩
  rw [(C1_snapshot_and_reset.2.2 sample_run _ rfl).2 (by decide)]
  decide

/-- C2, as stated, fails: `accept` returns descriptor 7 and `fcntl(F_GETFL)`
then fails; one attempt obtained a descriptor, yet `conns` is still zero. -/
theorem C2_counterexample :
    ∃ w', _ev_accept_cb 3 [⟨7, 0, -1, 0, true⟩] World.start = some (w', []) ∧
      ([(⟨7, 0, -1, 0, true⟩ : AcceptAnswer)].filter AcceptAnswer.accepted).length = 1 ∧
      w'._stats.conns = World.start._stats.conns ∧
      w'._stats.conns ≠ (World.start._stats.conns + 1) % SIZE_MOD :=
  ⟨_, rfl, by decide, by decide, by decide⟩

/-- C2, amended: over any number of invocations of the accept callback, `conns`
grows by exactly the number of attempts whose connection was obtained and set
up (libev: `accept`, both `fcntl` calls and `calloc` succeeded; libuv:
`uv_accept` and `uv_read_start` succeeded), which is at most the number `N` of
attempts that obtained a connection; `accept` grows by the number of `accept`
calls made under libev and by exactly `N` under libuv, so by at least `N`. All
in `size_t` arithmetic. The libev callback returns at the first attempt that
does not end in a connection set up. -/
theorem C2_conns_and_accept :
    (∀ (fd : Int) (n : Nat) (xs : List AcceptAnswer) (w w' : World) (rest : List AcceptAnswer),
      w._stats.ok → ev_accept_calls fd n xs w = some (w', rest) →
      ∃ used, xs = used ++ rest ∧
        w'._stats.conns = (w._stats.conns + (used.filter AcceptAnswer.set_up).length) % SIZE_MOD ∧
        w'._stats.accept = (w._stats.accept + used.length) % SIZE_MOD ∧
        (used.filter AcceptAnswer.set_up).length ≤ (used.filter AcceptAnswer.accepted).length ∧
        (used.filter AcceptAnswer.accepted).length ≤ used.length) ∧
    (∀ (as : List ConnectAnswer) (w : World), w._stats.ok →
      (uv_connect_calls as w)._stats.conns =
        (w._stats.conns + (as.filter ConnectAnswer.set_up).length) % SIZE_MOD ∧
      (uv_connect_calls as w)._stats.accept =
        (w._stats.accept + (as.filter ConnectAnswer.accepted).length) % SIZE_MOD ∧
      (as.filter ConnectAnswer.set_up).length ≤ (as.filter ConnectAnswer.accepted).length) ∧
    (∀ (fd : Int) (pre : List AcceptAnswer) (a : AcceptAnswer) (rest : List AcceptAnswer)
      (w : World), (∀ x ∈ pre, x.set_up = true) → a.set_up = false →
      ∃ w', _ev_accept_cb fd (pre ++ a :: rest) w = some (w', rest)) := by
  refine ⟨?_, ?_, ev_accept_cb_returns⟩
  · intro fd n xs w w' rest hok h
    obtain ⟨used, hu, _, hs⟩ := ev_accept_calls_effect fd n xs w w' rest hok h
    refine ⟨used, hu, by rw [hs]; rfl, by rw [hs]; rfl,
      filter_length_mono _ _ _ ev_set_up_accepted, List.length_filter_le _ _⟩
  · intro as w hok
    have hs := uv_connect_calls_effect as w hok
    exact ⟨by rw [hs]; rfl, by rw [hs]; rfl, filter_length_mono _ _ _ uv_set_up_accepted⟩

/-- C2 amended, on two libev invocations: a connection set up, one whose
`fcntl` fails, then one set up and a would-block: `conns` is 2, `accept` is 4,
and three attempts obtained a descriptor. -/
theorem C2_conns_and_accept_witness :
    ∃ w' used, ev_accept_calls 3 2 accept_sample World.start = some (w', []) ∧
      accept_sample = used ++ [] ∧ w'._stats.conns = 2 ∧ w'._stats.accept = 4 ∧
      (used.filter AcceptAnswer.accepted).length = 3 := by
  obtain ⟨used, hu, hc, ha, _, _⟩ :=
    C2_conns_and_accept.1 3 2 accept_sample World.start _ [] (by decide) rfl
  refine ⟨_, used, rfl, hu, ?_, ?_, ?_⟩
  · have h2 : (used.filter AcceptAnswer.set_up).length = 2 := by
      rw [← List.append_nil used, ← hu]; decide
    rw [hc, h2]; decide
  · have h4 : used.length = 4 := by rw [← List.append_nil used, ← hu]; decide
    rw [ha, h4]; decide
  · rw [← List.append_nil used, ← hu]; decide

/-- C3, as stated, fails under libuv: the connection callback is entered with
an error status; `accdrop` becomes 1 but `accept` stays 0. -/
theorem C3_counterexample :
    (_uv_on_connect_cb ⟨-103, 1, 0, 0, 0⟩ World.start)._stats.accdrop = 1 ∧
      (_uv_on_connect_cb ⟨-103, 1, 0, 0, 0⟩ World.start)._stats.accept = 0 ∧
      (_uv_on_connect_cb ⟨-103, 1, 0, 0, 0⟩ World.start)._stats.accept ≠
        (World.start._stats.accept + 1) % SIZE_MOD := by
  decide

/-- C3, amended: under libev a failed attempt (an `accept` error other than
would-block, or a failure of `fcntl` or `calloc` on the new descriptor),
reached after any number of connections set up in the same invocation, ends
the invocation having added one to `accept` and one to `accdrop` for that
attempt. Under libuv an error status given to the connection callback, or a
failure of `uv_tcp_init` or `uv_accept`, adds one to `accdrop` and leaves
`accept` as it was. -/
theorem C3_failed_accept :
    (∀ (fd : Int) (pre : List AcceptAnswer) (a : AcceptAnswer) (rest : List AcceptAnswer)
      (w : World), w._stats.ok → (∀ x ∈ pre, x.set_up = true) → a.failed = true →
      ∃ w', _ev_accept_cb fd (pre ++ a :: rest) w = some (w', rest) ∧
        w'._stats.accept = (w._stats.accept + pre.length + 1) % SIZE_MOD ∧
        w'._stats.accdrop = (w._stats.accdrop + 1) % SIZE_MOD ∧
        w'._stats.conns = (w._stats.conns + pre.length) % SIZE_MOD ∧
        w'._stats.bytes = w._stats.bytes ∧ w'._stats.pkts = w._stats.pkts) ∧
    (∀ (a : ConnectAnswer) (w : World), w._stats.ok → a.accepted = false →
      (_uv_on_connect_cb a w)._stats =
        { w._stats with accdrop := (w._stats.accdrop + 1) % SIZE_MOD }) := by
  constructor
  · intro fd pre a rest w hok hpre ha
    have hs : a.set_up = false := by
      simp only [AcceptAnswer.failed, Bool.and_eq_true, Bool.not_eq_true'] at ha
      exact ha.2
    obtain ⟨w', hw, hst⟩ := ev_accept_cb_run fd pre a rest w hok hpre hs
    refine ⟨w', hw, ?_⟩
    rw [hst]
    obtain ⟨_, _, _, h4, h5⟩ := hok
    simp [stats.bump, ha, Nat.add_assoc, Nat.mod_eq_of_lt h4, Nat.mod_eq_of_lt h5]
  · intro a w hok ha
    rw [uv_on_connect_cb_effect a w hok]
    have h1 : ¬ (a.status = 0 ∧ a.tcp_init = 0 ∧ a.accept = 0) := by
      intro h
      simp [ConnectAnswer.accepted, h.1, h.2.1, h.2.2] at ha
    have h2 : ¬ (a.status = 0 ∧ a.tcp_init = 0 ∧ a.accept = 0 ∧ a.read_start = 0) :=
      fun h => h1 ⟨h.1, h.2.1, h.2.2.1⟩
    rw [if_neg h1, if_neg h1, if_neg h2, (bump_one_field _ hok).2.1]

/-- C3 amended, on a libev invocation whose second `accept` fails with
`EMFILE` (24): `accept` is 2, `accdrop` 1, `conns` 1. -/
theorem C3_failed_accept_witness :
    ∃ w', _ev_accept_cb 3 ([⟨7, 0, 2, 0, true⟩] ++ ⟨-1, 24, 0, 0, true⟩ :: []) World.start
        = some (w', []) ∧
      w'._stats.accept = 2 ∧ w'._stats.accdrop = 1 ∧ w'._stats.conns = 1 := by
  obtain ⟨w', hw, h1, h2, h3, _⟩ :=
    C3_failed_accept.1 3 [⟨7, 0, 2, 0, true⟩] ⟨-1, 24, 0, 0, true⟩ [] World.start
      (by decide) (by decide) (by decide)
  exact ⟨w', hw, by rw [h1]; decide, by rw [h2]; decide, by rw [h3]; decide⟩

/-- C4: what the read callbacks add to `pkts` and `bytes`. One invocation of
the libev callback `_ev_recv_cb` adds to `pkts` the number of `recv` results
above zero it consumed and to `bytes` their sum, and nothing for a result of
zero or below; it returns as soon as a result is below the buffer size. The
libuv callbacks add nothing for a negative `nread`, but for every `nread` from
zero up they add one to `pkts`: with `nread = 0` (no data was read) `pkts`
goes from 0 to 1, which is where the code departs from the claim. -/
theorem C4_read_counting :
    (∀ (fd : Int) (xs : List Int) (w w' : World) (rest : List Int), w._stats.ok →
      _ev_recv_cb fd xs w = some (w', rest) →
      ∃ used, xs = used ++ rest ∧
        w'._stats.pkts = (w._stats.pkts + (positives used).length) % SIZE_MOD ∧
        w'._stats.bytes = (w._stats.bytes + byte_total used) % SIZE_MOD ∧
        w'._stats.accept = w._stats.accept ∧ w'._stats.accdrop = w._stats.accdrop ∧
        w'._stats.conns = w._stats.conns) ∧
    (∀ (fd : Int) (pre : List Int) (r : Int) (rest : List Int) (w : World),
      (∀ x ∈ pre, (sizeof_recvbuf : Int) ≤ x) → r < (sizeof_recvbuf : Int) →
      ∃ w', _ev_recv_cb fd (pre ++ r :: rest) w = some (w', rest)) ∧
    (∀ (h : Nat) (nread : Int) (w : World), nread < 0 →
      (_uv_tcp_recv_cb h nread w)._stats = w._stats ∧
      (_uv_udp_recv_cb h nread w)._stats = w._stats) ∧
    (∀ (h : Nat) (nread : Int) (w : World), w._stats.ok → 0 ≤ nread →
      (_uv_tcp_recv_cb h nread w)._stats =
        { w._stats with pkts := (w._stats.pkts + 1) % SIZE_MOD,
                        bytes := (w._stats.bytes + nread.toNat) % SIZE_MOD } ∧
      (_uv_udp_recv_cb h nread w)._stats = (_uv_tcp_recv_cb h nread w)._stats) ∧
    ((_uv_tcp_recv_cb 1 0 World.start)._stats = ⟨0, 0, 0, 0, 1⟩ ∧
      (_uv_udp_recv_cb 1 0 World.start)._stats = ⟨0, 0, 0, 0, 1⟩ ∧
      (_ev_recv_cb 7 [0] World.start).map (fun r => r.1._stats) = some ⟨0, 0, 0, 0, 0⟩) := by
  refine ⟨?_, ?_, ?_, ?_, by decide⟩
  · intro fd xs w w' rest hok h
    obtain ⟨used, hu, hs⟩ := ev_recv_cb_effect fd xs w w' rest hok h
    obtain ⟨h1, h2, h3, _, _⟩ := hok
    refine ⟨used, hu, ?_⟩
    rw [hs]
    simp [stats.bump, Nat.mod_eq_of_lt h1, Nat.mod_eq_of_lt h2, Nat.mod_eq_of_lt h3]
  · intro fd pre r rest w hpre hr
    exact ⟨_, ev_recv_cb_full fd pre r rest w hpre hr⟩
  · intro h nread w hn
    simp [_uv_tcp_recv_cb, _uv_udp_recv_cb, hn]
  · intro h nread w hok hn
    have hn' : ¬ nread < 0 := by omega
    simp only [_uv_tcp_recv_cb, _uv_udp_recv_cb, hn', if_false, and_true]
    rw [count_read_stats w nread hn hok]
    obtain ⟨h1, h2, h3, _, _⟩ := hok
    simp [stats.bump, Nat.mod_eq_of_lt h1, Nat.mod_eq_of_lt h2, Nat.mod_eq_of_lt h3]

/-- C4 on the libev callback: reads of 4194304 (a full buffer) and 100 bytes
in one invocation add 2 to `pkts` and 4194404 to `bytes`. -/
theorem C4_read_counting_witness :
    ∃ w' used, _ev_recv_cb 7 [4194304, 100] World.start = some (w', []) ∧
      ([4194304, 100] : List Int) = used ++ [] ∧ w'._stats.pkts = 2 ∧ w'._stats.bytes = 4194404 := by
  obtain ⟨used, hu, hp, hb, _⟩ :=
    C4_read_counting.1 7 [4194304, 100] World.start _ [] (by decide) rfl
  refine ⟨_, used, rfl, hu, ?_, ?_⟩
  · have h2 : (positives used).length = 2 := by
      rw [← List.append_nil used, ← hu]; decide
    rw [hp, h2]; decide
  · have h2 : byte_total used = 4194404 := by
      rw [← List.append_nil used, ← hu]; decide
    rw [hb, h2]; decide

/-- C9: one invocation of `_ev_shutdown_cb` leaves the five counters as they
were; when `recv` returned a positive count it only made that `recv` call
(the watcher stays started, nothing is closed); otherwise it stops the
watcher, closes the descriptor and frees the watcher, in that order. -/
theorem C9_draining_callback (fd r : Int) (w : World) :
    (_ev_shutdown_cb fd r w)._stats = w._stats ∧
    (0 < r → (_ev_shutdown_cb fd r w).watchers = w.watchers ∧
      (_ev_shutdown_cb fd r w).log = w.log ++ [Op.recv fd]) ∧
    (r ≤ 0 → (_ev_shutdown_cb fd r w).watchers = w.watchers.filter (fun p => p.1 ≠ fd) ∧
      registered (_ev_shutdown_cb fd r w) fd = none ∧
      (_ev_shutdown_cb fd r w).log =
        w.log ++ [Op.recv fd, Op.ev_io_stop fd, Op.close fd, Op.free fd]) := by
  refine ⟨?_, ?_, ?_⟩
  · unfold _ev_shutdown_cb; split <;> rfl
  · intro h
    simp [_ev_shutdown_cb, h, World.op]
  · intro h
    have h' : ¬ r > 0 := by omega
    refine ⟨by simp [_ev_shutdown_cb, h', World.op, World.ev_io_stop], ?_,
      by simp [_ev_shutdown_cb, h', World.op, World.ev_io_stop]⟩
    simp only [registered, _ev_shutdown_cb, h', if_false, World.op, World.ev_io_stop,
      Option.map_eq_none']
    apply List.find?_eq_none.mpr
    intro x hx
    have := (List.mem_filter.mp hx).2
    simpa using this

/-- C9 on a connection in the draining state: a positive read keeps it as it
is, end of stream closes it. -/
theorem C9_draining_callback_witness :
    (_ev_shutdown_cb 7 5 ⟨STATS_INIT, [(7, Callback.ev_shutdown_cb)], [], [], []⟩).watchers
        = [(7, Callback.ev_shutdown_cb)] ∧
      (_ev_shutdown_cb 7 0 ⟨STATS_INIT, [(7, Callback.ev_shutdown_cb)], [], [], []⟩).log
        = [Op.recv 7, Op.ev_io_stop 7, Op.close 7, Op.free 7] :=
  ⟨((C9_draining_callback 7 5 _).2.1 (by decide)).1,
    ((C9_draining_callback 7 0 _).2.2 (by decide)).2.2⟩

/-- C5, as stated, fails: on end of stream the active callback calls
`shutdown` with `SHUT_RDWR`, which stops receiving as well as sending; it
makes no `shutdown` call with `SHUT_WR`. -/
theorem C5_counterexample :
    ∃ w', _ev_recv_cb 7 [0] active_conn = some (w', []) ∧
      Op.shutdown 7 SHUT_RDWR ∈ w'.log ∧ Op.shutdown 7 SHUT_WR ∉ w'.log ∧ SHUT_RDWR ≠ SHUT_WR :=
  ⟨_, rfl, by decide, by decide, by decide⟩

/-- C5, amended: when a `recv` of `_ev_recv_cb` returns zero or an error (after
any number of reads that filled the buffer), the callback stops the watcher,
calls `shutdown(fd, SHUT_RDWR)`, which shuts down both directions, and starts
the watcher again with `_ev_shutdown_cb`; it closes nothing. -/
theorem C5_active_read_end (fd : Int) (pre : List Int) (r : Int) (rest : List Int) (w : World)
    (hpre : ∀ x ∈ pre, (sizeof_recvbuf : Int) ≤ x) (hr : r < 1) :
    ∃ w', _ev_recv_cb fd (pre ++ r :: rest) w = some (w', rest) ∧
      w'.watchers = w.watchers.filter (fun p => p.1 ≠ fd) ++ [(fd, Callback.ev_shutdown_cb)] ∧
      registered w' fd = some Callback.ev_shutdown_cb ∧
      w'.log = w.log ++ List.replicate (pre.length + 1) (Op.recv fd) ++
        [Op.ev_io_stop fd, Op.shutdown fd 2, Op.ev_io_start fd Callback.ev_shutdown_cb] := by
  have hb : (1 : Int) < (sizeof_recvbuf : Int) := by decide
  refine ⟨_, ev_recv_cb_full fd pre r rest w hpre (by omega), ?_, ?_, ?_⟩
  · simp [hr, _ev_recv_cb_tail, World.ev_io_start, World.ev_io_stop, World.op,
      count_reads_watchers]
  · simp only [hr, if_true, _ev_recv_cb_tail]
    exact registered_after_start _ fd _
  · simp [hr, _ev_recv_cb_tail, World.ev_io_start, World.ev_io_stop, World.op,
      count_reads_log, SHUT_RDWR, List.replicate_succ']

/-- C5 amended, on an active connection whose `recv` returns 0. -/
theorem C5_active_read_end_witness :
    ∃ w', _ev_recv_cb 7 ([] ++ 0 :: []) active_conn = some (w', []) ∧
      w'.watchers = [(7, Callback.ev_shutdown_cb)] ∧
      w'.log = [Op.recv 7, Op.ev_io_stop 7, Op.shutdown 7 2,
        Op.ev_io_start 7 Callback.ev_shutdown_cb] := by
  obtain ⟨w', h, hw, _, hl⟩ :=
    C5_active_read_end 7 [] 0 [] active_conn (by simp) (by decide)
  exact ⟨w', h, by rw [hw]; decide, by rw [hl]; decide⟩

/-- C10 fails on the code: a `recv` that fills the 4 MiB buffer is followed, in
the same invocation, by a `recv` that returns -1 (would-block; the callback
never reads `errno`); the callback then stops the watcher, shuts the
descriptor down and starts the draining callback, and the next would-block in
`_ev_shutdown_cb` closes the connection. The same happens when the first
`recv` of an invocation returns -1. -/
theorem C10_would_block_shuts_down :
    (∃ w', _ev_recv_cb 7 [4194304, -1] active_conn = some (w', []) ∧
      registered active_conn 7 = some Callback.ev_recv_cb ∧
      registered w' 7 = some Callback.ev_shutdown_cb ∧
      w'.log = [Op.recv 7, Op.recv 7, Op.ev_io_stop 7, Op.shutdown 7 SHUT_RDWR,
        Op.ev_io_start 7 Callback.ev_shutdown_cb] ∧
      Op.close 7 ∈ (_ev_shutdown_cb 7 (-1) w').log) ∧
    (∃ w', _ev_recv_cb 7 [-1] active_conn = some (w', []) ∧
      registered w' 7 = some Callback.ev_shutdown_cb ∧ Op.shutdown 7 SHUT_RDWR ∈ w'.log) :=
  ⟨⟨_, rfl, by decide, by decide, by decide, by decide⟩, ⟨_, rfl, by decide, by decide⟩⟩

/-- C7, as stated, fails under libuv: after a read of 60 bytes the handle is
active; the end-of-stream callback stops reading and calls `uv_close` at
once, so the connection is closed without a draining state in between (no
`shutdown`, no new read registration). -/
theorem C7_counterexample :
    uv_conn_state (uv_tcp_reads 1 [60] (uv_accepted 1)) 1 = ConnState.ACTIVE ∧
      uv_conn_state (_uv_tcp_recv_cb 1 UV_EOF (uv_tcp_reads 1 [60] (uv_accepted 1))) 1
        = ConnState.CLOSED ∧
      (_uv_tcp_recv_cb 1 UV_EOF (uv_tcp_reads 1 [60] (uv_accepted 1))).log =
        [Op.uv_tcp_init 1, Op.uv_accept 1, Op.uv_read_start 1, Op.uv_read_stop 1, Op.uv_close 1] := by
  decide

/-- C7, amended. Under libev a connection accepted as `newfd` that delivers
positive reads `ps`, then end of stream, and end of stream again to the
draining callback, is active after each callback that read data, then
draining, then closed; `close(newfd)` is called exactly once, at no time more
than one watcher of `newfd` is started, and after the `close` only the watcher
is freed. Under libuv the connection is active through the positive reads and
closed by the end-of-stream callback itself, with no draining state: over its
life the calls are `uv_read_start`, `uv_read_stop`, `uv_close` and the `free`
of the close callback, once each. -/
theorem C7_connection_life :
    (∀ (lfd newfd : Int) (ps : List Int), 0 ≤ newfd → newfd ≠ lfd → (∀ p ∈ ps, 0 < p) →
      ∃ (w0 : World) (act : List World) (wd wc : World),
        ev_accepted lfd newfd = some w0 ∧ conn_state w0 newfd = ConnState.ACTIVE ∧
        ev_conn_trace newfd (ps.length + 2) (ps ++ [0, 0]) w0 = act ++ [wd, wc] ∧
        (∀ x ∈ act, conn_state x newfd = ConnState.ACTIVE) ∧
        conn_state wd newfd = ConnState.DRAINING ∧ conn_state wc newfd = ConnState.CLOSED ∧
        wc.log.count (Op.close newfd) = 1 ∧ regs_ok newfd wc.log 0 = true ∧
        (∀ o ∈ after_close newfd wc.log, o.on_fd newfd = false)) ∧
    (∀ (h : Nat) (ps : List Int), (∀ p ∈ ps, 0 < p) →
      uv_conn_state (uv_accepted h) h = ConnState.ACTIVE ∧
      uv_conn_state (uv_tcp_reads h ps (uv_accepted h)) h = ConnState.ACTIVE ∧
      uv_conn_state (_uv_tcp_recv_cb h UV_EOF (uv_tcp_reads h ps (uv_accepted h))) h
        = ConnState.CLOSED ∧
      (_uv_close_cb h (_uv_tcp_recv_cb h UV_EOF (uv_tcp_reads h ps (uv_accepted h)))).log =
        [Op.uv_tcp_init h, Op.uv_accept h, Op.uv_read_start h, Op.uv_read_stop h, Op.uv_close h,
          Op.uv_free h]) := by
  constructor
  · intro lfd newfd ps h0 hne hps
    have hacc := ev_accepted_eq lfd newfd h0
    have hne' : ¬ lfd = newfd := fun h => hne h.symm
    have hreg : registered (⟨⟨2, 0, 1, 0, 0⟩,
        [(lfd, Callback.ev_accept_cb), (newfd, Callback.ev_recv_cb)], [], [],
        [Op.ev_io_start lfd Callback.ev_accept_cb, Op.accept lfd, Op.fcntl newfd, Op.fcntl newfd,
          Op.ev_io_start newfd Callback.ev_recv_cb, Op.accept lfd]⟩ : World) newfd
        = some Callback.ev_recv_cb := by
      simp [registered, List.find?, hne']
    obtain ⟨act, wd, wc, h1, h2, h3, h4, h5⟩ :=
      ev_conn_life newfd ps hps (ps.length + 1) _ hreg (Nat.le_refl _)
    obtain ⟨f1, f2, f3⟩ := conn_log_facts lfd newfd hne (ps.length + 1) wc.log h5
    refine ⟨_, act, wd, wc, hacc, by simp [conn_state, hreg], ?_, h2, h3, h4, f1, f2, ?_⟩
    · simp only [ev_conn_trace, ev_readable, hreg]
      exact h1
    · rw [f3]
      intro o ho
      rw [List.mem_singleton.mp ho]
      rfl
  · intro h ps hps
    obtain ⟨h1, h2, _⟩ := uv_tcp_reads_keep h ps (uv_accepted h)
      (fun p hp => by have := hps p hp; omega)
    have ha : (uv_accepted h).uv_reading = [h] ∧
        (uv_accepted h).log = [Op.uv_tcp_init h, Op.uv_accept h, Op.uv_read_start h] := by
      simp [uv_accepted, _uv_on_connect_cb, World.start, World.op, World.inc_accept,
        World.inc_conns, World.uv_read_start]
    have he : UV_EOF < 0 := by decide
    refine ⟨by simp [uv_conn_state, ha.1], by simp [uv_conn_state, h2, ha.1], ?_, ?_⟩
    · simp [uv_conn_state, _uv_tcp_recv_cb, he, World.uv_read_stop, World.uv_close, h2, ha.1]
    · simp [_uv_close_cb, _uv_tcp_recv_cb, he, World.uv_read_stop, World.uv_close, h1, ha.2]

/-- C7 amended, on a libev connection that delivers 10, 20 and 30 bytes. -/
theorem C7_connection_life_witness :
    ∃ (w0 : World) (act : List World) (wd wc : World),
      ev_accepted 3 7 = some w0 ∧
      ev_conn_trace 7 5 ([10, 20, 30] ++ [0, 0]) w0 = act ++ [wd, wc] ∧
      conn_state wd 7 = ConnState.DRAINING ∧ conn_state wc 7 = ConnState.CLOSED ∧
      wc.log.count (Op.close 7) = 1 := by
  obtain ⟨w0, act, wd, wc, h1, _, h3, _, h5, h6, h7, _, _⟩ :=
    C7_connection_life.1 3 7 [10, 20, 30] (by decide) (by decide) (by decide)
  exact ⟨w0, act, wd, wc, h1, h3, h5, h6, h7⟩

/-- C6, as stated, fails under libev: a datagram socket registered by `main`
gets `_ev_recv_cb`; when `recv` returns 0 it is shut down and left registered
with the draining callback, and nothing is closed in that callback. -/
theorem C6_counterexample :
    ∃ w', ev_readable 4 [0] (ev_listen 4 SOCK_DGRAM World.start) = some (w', []) ∧
      registered w' 4 = some Callback.ev_shutdown_cb ∧ Op.shutdown 4 SHUT_RDWR ∈ w'.log ∧
      Op.close 4 ∉ w'.log :=
  ⟨_, rfl, by decide, by decide, by decide⟩

/-- C6, amended. Under libev `main` registers a datagram socket with
`_ev_recv_cb`, the callback of connections: a first read returning zero or an
error stops the watcher, calls `shutdown(fd, SHUT_RDWR)` and starts the
watcher again with `_ev_shutdown_cb`, closing nothing; the draining callback
stops the watcher and closes the descriptor at its next read that returns zero
or an error. Under libuv a negative `nread` makes `_uv_udp_recv_cb` stop
receiving and call `uv_close` in that same callback, and `nread = 0` leaves
the handle receiving. -/
theorem C6_datagram_read_end :
    (∀ (fd : Int) (w : World) (r : Int) (rest : List Int), registered w fd = none → r < 1 →
      registered (ev_listen fd SOCK_DGRAM w) fd = some Callback.ev_recv_cb ∧
      ∃ w', ev_readable fd (r :: rest) (ev_listen fd SOCK_DGRAM w) = some (w', rest) ∧
        registered w' fd = some Callback.ev_shutdown_cb ∧
        w'.log = w.log ++ [Op.ev_io_start fd Callback.ev_recv_cb, Op.recv fd, Op.ev_io_stop fd,
          Op.shutdown fd SHUT_RDWR, Op.ev_io_start fd Callback.ev_shutdown_cb] ∧
        ∀ (e : Int) (rest' : List Int), e ≤ 0 →
          ∃ w'', ev_readable fd (e :: rest') w' = some (w'', rest') ∧
            registered w'' fd = none ∧
            w''.log = w'.log ++ [Op.recv fd, Op.ev_io_stop fd, Op.close fd, Op.free fd]) ∧
    (∀ (h : Nat) (nread : Int) (w : World), nread < 0 →
      (_uv_udp_recv_cb h nread w).log = w.log ++ [Op.uv_udp_recv_stop h, Op.uv_close h] ∧
      h ∉ (_uv_udp_recv_cb h nread w).uv_reading ∧ h ∈ (_uv_udp_recv_cb h nread w).uv_closing) ∧
    (∀ (h : Nat) (w : World), (_uv_udp_recv_cb h 0 w).log = w.log ∧
      (_uv_udp_recv_cb h 0 w).uv_reading = w.uv_reading ∧
      (_uv_udp_recv_cb h 0 w).uv_closing = w.uv_closing) := by
  refine ⟨?_, ?_, ?_⟩
  · intro fd w r rest hw hr
    obtain ⟨hl1, hl2⟩ := ev_listen_dgram fd w hw
    obtain ⟨ht1, ht2⟩ := ev_recv_cb_tail_state fd ((ev_listen fd SOCK_DGRAM w).op (Op.recv fd))
    refine ⟨hl1, _ev_recv_cb_tail fd ((ev_listen fd SOCK_DGRAM w).op (Op.recv fd)), ?_, ht1, ?_, ?_⟩
    · simp [ev_readable, hl1, _ev_recv_cb, hr]
    · rw [ht2]
      simp [World.op, hl2]
    · intro e rest' he
      obtain ⟨hs1, hs2⟩ := ev_shutdown_cb_end fd e
        (_ev_recv_cb_tail fd ((ev_listen fd SOCK_DGRAM w).op (Op.recv fd))) he
      exact ⟨_, by simp [ev_readable, ht1], hs1, hs2⟩
  · intro h nread w hn
    simp [_uv_udp_recv_cb, hn, World.uv_udp_recv_stop, World.uv_close]
  · intro h w
    simp [_uv_udp_recv_cb, World.inc_pkts, World.add_bytes]

/-- C6 amended, on the datagram socket 4 under libev whose `recv` returns 0. -/
theorem C6_datagram_read_end_witness :
    ∃ w', ev_readable 4 (0 :: []) (ev_listen 4 SOCK_DGRAM World.start) = some (w', []) ∧
      registered w' 4 = some Callback.ev_shutdown_cb ∧
      w'.log = World.start.log ++ [Op.ev_io_start 4 Callback.ev_recv_cb, Op.recv 4,
        Op.ev_io_stop 4, Op.shutdown 4 SHUT_RDWR, Op.ev_io_start 4 Callback.ev_shutdown_cb] := by
  obtain ⟨_, w', h1, h2, h3, _⟩ :=
    C6_datagram_read_end.1 4 World.start 0 [] (by decide) (by decide)
  exact ⟨w', h1, h2, h3⟩

/-- C8, as stated, fails under libev: for the connection delivering 10, 20 and
30 bytes the `accept` counter totals 2, not 1: the `accept` call that ends the
loop of `_ev_accept_cb` with would-block is counted as well. -/
theorem C8_counterexample :
    ∃ w', run (ev_scenario 3 7 [10, 20, 30]) World.start = some w' ∧
      (stats.total (reports w'.log)).plus w'._stats = ⟨2, 0, 1, 60, 3⟩ ∧
      ((stats.total (reports w'.log)).plus w'._stats).accept ≠ 1 :=
  ⟨_, rfl, by decide, by decide⟩

/-- C8, amended: one TCP connection delivers 60 bytes in reads of any positive
sizes `cs` and closes, with ticks interleaved anywhere. Every callback returns,
and what is printed plus what is still live totals `conns = 1`,
`pkts = cs.length ≥ 1`, `bytes = 60`, `accdrop = 0`, with `accept = 2` under
libev (the would-block `accept` is counted) and `accept = 1` under libuv. -/
theorem C8_scenario_counters :
    (∀ (lfd newfd : Int) (cs : List Nat) (tr : List Event), 0 ≤ newfd → (∀ c ∈ cs, 0 < c) →
      cs.sum = 60 → tr.filter (fun e => decide (e ≠ Event.timer)) = ev_scenario lfd newfd cs →
      ∃ w', run tr World.start = some w' ∧
        (stats.total (reports w'.log)).plus w'._stats = ⟨2, 0, 1, 60, cs.length⟩ ∧
        1 ≤ cs.length) ∧
    (∀ (h : Nat) (cs : List Nat) (tr : List Event), (∀ c ∈ cs, 0 < c) →
      cs.sum = 60 → tr.filter (fun e => decide (e ≠ Event.timer)) = uv_scenario h cs →
      ∃ w', run tr World.start = some w' ∧
        (stats.total (reports w'.log)).plus w'._stats = ⟨1, 0, 1, 60, cs.length⟩ ∧
        1 ≤ cs.length) := by
  have hok : ∀ (a : Nat) (cs : List Nat), a ≤ 2 → (∀ c ∈ cs, 0 < c) → cs.sum = 60 →
      (⟨a, 0, 1, 60, cs.length⟩ : stats).ok := by
    intro a cs ha hpos hsum
    have := length_le_sum cs hpos
    simp only [stats.ok, SIZE_MOD]
    omega
  constructor
  · intro lfd newfd cs tr h0 hpos hsum hf
    obtain ⟨hret, hT⟩ := ev_scenario_facts lfd newfd cs h0 hpos hsum
    obtain ⟨w', hw, ht⟩ := scenario_totals tr _ _ hf hret hT (hok 2 cs (by omega) hpos hsum)
    exact ⟨w', hw, ht, pos_length_of_sum cs hsum⟩
  · intro h cs tr hpos hsum hf
    obtain ⟨hret, hT⟩ := uv_scenario_facts h cs hpos hsum
    obtain ⟨w', hw, ht⟩ := scenario_totals tr _ _ hf hret hT (hok 1 cs (by omega) hpos hsum)
    exact ⟨w', hw, ht, pos_length_of_sum cs hsum⟩

/-- C8 amended, on the libev scenario with reads of 10, 20 and 30 bytes and
three ticks. -/
theorem C8_scenario_counters_witness :
    ∃ w', run scenario_run World.start = some w' ∧
      (stats.total (reports w'.log)).plus w'._stats = ⟨2, 0, 1, 60, 3⟩ := by
  obtain ⟨w', hw, ht, _⟩ := C8_scenario_counters.1 3 7 [10, 20, 30] scenario_run
    (by decide) (by decide) (by decide) (by decide)
  exact ⟨w', hw, ht⟩

end Dumdumd
